import Mathlib

/-!
Verification of the a-json-library core (`src/src/ajson.c`,
`src/include/a-json-library/impl/ajson.h`) against its specification.

Shallow embedding conventions:
* A C byte buffer is a `List Nat` of byte values (0..255).
* Reading one past the end of a window returns 0: every claim-relevant
  entry point (`ajson_parse_string`, decode/encode on C strings) operates
  on NUL-terminated pool copies, so the byte at index `length` is 0.
* Machine integers that never overflow on claim-relevant inputs are
  modelled as `Nat` (sizes, positions) or `Int` (the `int nth` array
  indices).
* Undefined behaviour that the claims touch (the parser dereferencing a
  NULL array pointer) is modelled as an explicit `.crash` outcome.
-/

namespace AJsonLib

/-- Read byte `i` of buffer `b`; one past the end reads the NUL pad. -/
def readAt (b : List Nat) (i : Nat) : Nat := b.getD i 0

/-! ## UTF-8 filter (`ajson_copy_valid_utf8`, ajson.c lines 144-209)

The three filter loops in the source (`ajson_copy_valid_utf8`,
`ajson_buffer_append_valid_utf8`, `ajson_file_write_valid_utf8`) are the
same algorithm writing to different sinks; they are embedded once as a
function from the input bytes to the output bytes.

The C scans with an index `i` and guards each multi-byte case with both
the start-byte mask and the remaining-length test `(i+k) < len`, exactly
as embedded below; when the mask matches but bytes are missing, all the
later mask tests fail (the masks are mutually exclusive) and one byte is
skipped. -/
/-- Is `c` a UTF-8 continuation byte (`(c & 0xC0) == 0x80`)? -/
def isCont (c : Nat) : Bool := c &&& 0xC0 == 0x80

/-- The filter loop of `ajson_copy_valid_utf8` from position `i`. -/
def copyFrom (b : List Nat) (i : Nat) : List Nat :=
  if i < b.length then
    let c := readAt b i
    if c < 0x80 then c :: copyFrom b (i+1)
    else if c &&& 0xE0 == 0xC0 && decide (i+1 < b.length) then
      (if isCont (readAt b (i+1)) then c :: readAt b (i+1) :: copyFrom b (i+2)
       else copyFrom b (i+1))
    else if c &&& 0xF0 == 0xE0 && decide (i+2 < b.length) then
      (if isCont (readAt b (i+1)) && isCont (readAt b (i+2)) then
        c :: readAt b (i+1) :: readAt b (i+2) :: copyFrom b (i+3)
       else copyFrom b (i+1))
    else if c &&& 0xF8 == 0xF0 && decide (i+3 < b.length) then
      (if isCont (readAt b (i+1)) && isCont (readAt b (i+2)) &&
          isCont (readAt b (i+3)) then
        c :: readAt b (i+1) :: readAt b (i+2) :: readAt b (i+3) ::
          copyFrom b (i+4)
       else copyFrom b (i+1))
    else copyFrom b (i+1)
  else []
  termination_by b.length - i

def ajson_copy_valid_utf8 (src : List Nat) : List Nat := copyFrom src 0

/-- Mask-level UTF-8 well-formedness of the suffix of `b` from `i`:
exactly the inputs on which the filter copies every byte.  As in the
source, only the start-byte classification, the `10xxxxxx` continuation
mask and the remaining-length tests are checked (no overlong/surrogate
rejection, no normalization). -/
def validFrom (b : List Nat) (i : Nat) : Bool :=
  if i < b.length then
    let c := readAt b i
    if c < 0x80 then validFrom b (i+1)
    else if c &&& 0xE0 == 0xC0 then
      decide (i+1 < b.length) && isCont (readAt b (i+1)) && validFrom b (i+2)
    else if c &&& 0xF0 == 0xE0 then
      decide (i+2 < b.length) && isCont (readAt b (i+1)) &&
        isCont (readAt b (i+2)) && validFrom b (i+3)
    else if c &&& 0xF8 == 0xF0 then
      decide (i+3 < b.length) && isCont (readAt b (i+1)) &&
        isCont (readAt b (i+2)) && isCont (readAt b (i+3)) && validFrom b (i+4)
    else false
  else true
  termination_by b.length - i

/-- A byte list is (mask-level) valid UTF-8. -/
def utf8Valid (s : List Nat) : Bool := validFrom s 0

/-! ## Node model and emitters (ajson.c lines 417-791)

The tree built by the parser/builders: a node is an object (ordered
entries), an array, a string (payload stored JSON-encoded, emitted
through the UTF-8 filter), a scalar (null/true/false/zero/number/decimal,
whose literal bytes are emitted verbatim), or an error node (the dump
switch's default case, which emits nothing).  Object keys are C strings;
they are emitted verbatim by `strlen`, so a key is modelled as its
NUL-free byte list. -/
inductive ScalTag where
  | tnull | ttrue | tfalse | tzero | tnumber | tdecimal
  deriving DecidableEq, Repr

mutual
inductive AJson where
  | obj (es : AEntries)
  | arr (xs : AElems)
  | str (payload : List Nat)
  | scalar (t : ScalTag) (v : List Nat)
  | error
  deriving DecidableEq, Repr
inductive AElems where
  | nil
  | cons (hd : AJson) (tl : AElems)
  deriving DecidableEq, Repr
inductive AEntries where
  | enil
  | econs (key : List Nat) (v : AJson) (tl : AEntries)
  deriving DecidableEq, Repr
end

/-! Compact memory writer `_ajson_dump_to_memory` /
`ajson_dump_object_to_memory` / `ajson_dump_array_to_memory`
(ajson.c lines 477-530), as the list of bytes written (the final NUL
written by `ajson_dump_to_memory` is not part of the written count). -/
mutual
def ajson_dump_to_memory : AJson → List Nat
  | .obj es => 123 :: dump_object_entries es ++ [125]
  | .arr xs => 91 :: dump_array_elems xs ++ [93]
  | .str payload => 34 :: ajson_copy_valid_utf8 payload ++ [34]
  | .scalar _ v => v
  | .error => []

def dump_object_entries : AEntries → List Nat
  | .enil => []
  | .econs k v tl =>
    34 :: k ++ [34, 58] ++ ajson_dump_to_memory v ++
      (match tl with | .enil => [] | .econs _ _ _ => [44]) ++
      dump_object_entries tl

def dump_array_elems : AElems → List Nat
  | .nil => []
  | .cons v tl =>
    ajson_dump_to_memory v ++
      (match tl with | .nil => [] | .cons _ _ => [44]) ++
      dump_array_elems tl
end

/-! Compact size estimate `_ajson_dump_estimate` /
`ajson_dump_object_estimate` / `ajson_dump_array_estimate`
(ajson.c lines 422-464). -/
mutual
def _ajson_dump_estimate : AJson → Nat
  | .obj es => 1 + est_object_entries es + 1
  | .arr xs => 1 + est_array_elems xs + 1
  | .str payload => 2 + payload.length
  | .scalar _ v => v.length
  | .error => 0

def est_object_entries : AEntries → Nat
  | .enil => 0
  | .econs k v tl =>
    1 + k.length + 1 + 1 + _ajson_dump_estimate v +
      (match tl with | .enil => 0 | .econs _ _ _ => 1) +
      est_object_entries tl

def est_array_elems : AElems → Nat
  | .nil => 0
  | .cons v tl =>
    _ajson_dump_estimate v +
      (match tl with | .nil => 0 | .cons _ _ => 1) +
      est_array_elems tl
end

/-- `ajson_dump_estimate` (ajson.c line 466): core estimate plus the
trailing NUL. -/
def ajson_dump_estimate (a : AJson) : Nat := _ajson_dump_estimate a + 1

/-- `_pp_step` (ajson.c line 601): indent step, defaulting to 2 when
not positive. -/
def _pp_step (step : Int) : Int := if step > 0 then step else 2

/-- Bytes of one indentation run (`_indent_mem`). -/
def _indent_mem (depth : Nat) (step : Int) : List Nat :=
  List.replicate (depth * (_pp_step step).toNat) 32

/-! Pretty size estimate `_ajson_dump_pretty_estimate` and pretty memory
writer `_ajson_dump_pretty_to_memory` (ajson.c lines 603-755).  In the
model every entry has a value, so the source's skipping of NULL-valued
entries never fires and `had_any` is exactly "the container is
non-empty". -/
mutual
def _ajson_dump_pretty_estimate : AJson → Nat → Int → Nat
  | .obj es, depth, step =>
    2 + pp_est_object_entries es depth step +
      (match es with
       | .enil => 0
       | .econs _ _ _ => 1 + depth * (_pp_step step).toNat)
  | .arr xs, depth, step =>
    2 + pp_est_array_elems xs depth step +
      (match xs with
       | .nil => 0
       | .cons _ _ => 1 + depth * (_pp_step step).toNat)
  | .str payload, _, _ => 2 + payload.length
  | .scalar _ v, _, _ => v.length
  | .error, _, _ => 0

def pp_est_object_entries : AEntries → Nat → Int → Nat
  | .enil, _, _ => 0
  | .econs k v tl, depth, step =>
    1 + (depth + 1) * (_pp_step step).toNat + (1 + k.length + 1) + 2 +
      _ajson_dump_pretty_estimate v (depth + 1) step +
      (match tl with | .enil => 0 | .econs _ _ _ => 1) +
      pp_est_object_entries tl depth step

def pp_est_array_elems : AElems → Nat → Int → Nat
  | .nil, _, _ => 0
  | .cons v tl, depth, step =>
    1 + (depth + 1) * (_pp_step step).toNat +
      _ajson_dump_pretty_estimate v (depth + 1) step +
      (match tl with | .nil => 0 | .cons _ _ => 1) +
      pp_est_array_elems tl depth step
end

/-- `ajson_dump_pretty_estimate` (ajson.c line 671): plus trailing NUL. -/
def ajson_dump_pretty_estimate (a : AJson) (indent_step : Int) : Nat :=
  _ajson_dump_pretty_estimate a 0 indent_step + 1

mutual
def _ajson_dump_pretty_to_memory : AJson → Nat → Int → List Nat
  | .obj es, depth, step =>
    123 :: (pp_dump_object_entries es depth step ++
      (match es with
       | .enil => []
       | .econs _ _ _ => 10 :: _indent_mem depth step) ++ [125])
  | .arr xs, depth, step =>
    91 :: (pp_dump_array_elems xs depth step ++
      (match xs with
       | .nil => []
       | .cons _ _ => 10 :: _indent_mem depth step) ++ [93])
  | .str payload, _, _ => 34 :: ajson_copy_valid_utf8 payload ++ [34]
  | .scalar _ v, _, _ => v
  | .error, _, _ => []

def pp_dump_object_entries : AEntries → Nat → Int → List Nat
  | .enil, _, _ => []
  | .econs k v tl, depth, step =>
    10 :: _indent_mem (depth + 1) step ++ (34 :: k ++ [34, 58, 32]) ++
      _ajson_dump_pretty_to_memory v (depth + 1) step ++
      (match tl with | .enil => [] | .econs _ _ _ => [44]) ++
      pp_dump_object_entries tl depth step

def pp_dump_array_elems : AElems → Nat → Int → List Nat
  | .nil, _, _ => []
  | .cons v tl, depth, step =>
    10 :: _indent_mem (depth + 1) step ++
      _ajson_dump_pretty_to_memory v (depth + 1) step ++
      (match tl with | .nil => [] | .cons _ _ => [44]) ++
      pp_dump_array_elems tl depth step
end

/-! String-payload validity over a tree, and the writer's deficiency
(the bytes the UTF-8 filter drops). -/
mutual
def allStringsValid : AJson → Bool
  | .obj es => entriesStringsValid es
  | .arr xs => elemsStringsValid xs
  | .str payload => utf8Valid payload
  | .scalar _ _ => true
  | .error => true

def entriesStringsValid : AEntries → Bool
  | .enil => true
  | .econs _ v tl => allStringsValid v && entriesStringsValid tl

def elemsStringsValid : AElems → Bool
  | .nil => true
  | .cons v tl => allStringsValid v && elemsStringsValid tl
end

mutual
def strDeficiency : AJson → Nat
  | .obj es => entriesDeficiency es
  | .arr xs => elemsDeficiency xs
  | .str payload => payload.length - (ajson_copy_valid_utf8 payload).length
  | .scalar _ _ => 0
  | .error => 0

def entriesDeficiency : AEntries → Nat
  | .enil => 0
  | .econs _ v tl => strDeficiency v + entriesDeficiency tl

def elemsDeficiency : AElems → Nat
  | .nil => 0
  | .cons v tl => strDeficiency v + elemsDeficiency tl
end

/-! ## Escape codec (ajson.c lines 871-1125)

Encode: `ajson_encode` scans for the first byte requiring an escape and
returns the input unchanged (zero copy) when there is none; otherwise
`_ajson_encode` copies the clean prefix and escapes from there on.

Decode: `ajson_decode` scans for the first backslash and returns the
input unchanged when there is none; otherwise `_ajson_decode` copies the
prefix and decodes escape sequences, with `unicode_to_utf8` handling
`\uXXXX` (including UTF-16 surrogate pairs). -/
/-- One byte of `sprintf("\u%04X")` output: uppercase hex digit. -/
def hexUp (n : Nat) : Nat := if n < 10 then 48 + n else 55 + n

/-- The scan condition of `ajson_encode` (ajson.c line 1088). -/
def encode_scan_hit (ch : Nat) : Bool :=
  decide (ch < 0x20) || ch == 34 || ch == 92 || ch == 47 || ch == 0

/-- Index of the first byte at which `ajson_encode` stops scanning. -/
def ajson_encode_scan : List Nat → Option Nat
  | [] => none
  | c :: r =>
    if encode_scan_hit c then some 0
    else (ajson_encode_scan r).map (· + 1)

/-- The escape loop of `_ajson_encode` (ajson.c lines 1057-1078). -/
def _ajson_encode_loop : List Nat → List Nat
  | [] => []
  | c :: r =>
    if c = 34 then 92 :: 34 :: _ajson_encode_loop r
    else if c = 92 then 92 :: 92 :: _ajson_encode_loop r
    else if c = 47 then 92 :: 47 :: _ajson_encode_loop r
    else if c = 8 then 92 :: 98 :: _ajson_encode_loop r
    else if c = 12 then 92 :: 102 :: _ajson_encode_loop r
    else if c = 10 then 92 :: 110 :: _ajson_encode_loop r
    else if c = 13 then 92 :: 114 :: _ajson_encode_loop r
    else if c = 9 then 92 :: 116 :: _ajson_encode_loop r
    else if c < 0x20 then
      92 :: 117 :: 48 :: 48 :: hexUp (c / 16) :: hexUp (c % 16) ::
        _ajson_encode_loop r
    else c :: _ajson_encode_loop r

/-- `_ajson_encode` (ajson.c line 1051): verbatim prefix, then escapes. -/
def _ajson_encode (pre suf : List Nat) : List Nat :=
  pre ++ _ajson_encode_loop suf

/-- `ajson_encode` (ajson.c line 1083).  A `none` scan result means the
C function returns its input pointer unchanged (zero copy). -/
def ajson_encode (s : List Nat) : List Nat :=
  match ajson_encode_scan s with
  | none => s
  | some p => _ajson_encode (s.take p) (s.drop p)

/-- Did `ajson_encode` return the input pointer unchanged? -/
def ajson_encode_zero_copy (s : List Nat) : Bool :=
  (ajson_encode_scan s).isNone

/-- One hex digit (the repeated digit-parsing block of
`unicode_to_utf8`); `none` models `return -1`. -/
def hexVal (c : Nat) : Option Nat :=
  if 48 ≤ c ∧ c ≤ 57 then some (c - 48)
  else if 65 ≤ c ∧ c ≤ 70 then some (c - 65 + 10)
  else if 97 ≤ c ∧ c ≤ 102 then some (c - 97 + 10)
  else none

/-- The UTF-8 emission tail of `unicode_to_utf8` (ajson.c lines 965-987).
The final `return 0` case (code point ≥ 0x110000, unreachable) emits
nothing. -/
def utf8_emit (ch : Nat) : List Nat :=
  if ch < 0x80 then [ch]
  else if ch < 0x800 then [(ch >>> 6) ||| 0xC0, (ch &&& 0x3F) ||| 0x80]
  else if ch < 0x10000 then
    [(ch >>> 12) ||| 0xE0, ((ch >>> 6) &&& 0x3F) ||| 0x80,
     (ch &&& 0x3F) ||| 0x80]
  else if ch < 0x110000 then
    [(ch >>> 18) ||| 0xF0, ((ch >>> 12) &&& 0x3F) ||| 0x80,
     ((ch >>> 6) &&& 0x3F) ||| 0x80, (ch &&& 0x3F) ||| 0x80]
  else []

/-- `unicode_to_utf8` (ajson.c lines 871-988) on the bytes following
`\u`: either the emitted UTF-8 bytes with the number of source bytes
consumed (4, or 10 for a surrogate pair), or `none` for `return -1`. -/
def unicode_to_utf8 (s : List Nat) : Option (List Nat × Nat) :=
  match hexVal (readAt s 0), hexVal (readAt s 1),
        hexVal (readAt s 2), hexVal (readAt s 3) with
  | some d1, some d2, some d3, some d4 =>
    let ch := ((d1 * 16 + d2) * 16 + d3) * 16 + d4
    if 0xD800 ≤ ch ∧ ch ≤ 0xDBFF then
      if readAt s 4 = 92 ∧ readAt s 5 = 117 then
        match hexVal (readAt s 6), hexVal (readAt s 7),
              hexVal (readAt s 8), hexVal (readAt s 9) with
        | some e1, some e2, some e3, some e4 =>
          let ch2 := ((e1 * 16 + e2) * 16 + e3) * 16 + e4
          if ch2 < 0xDC00 ∨ 0xDFFF < ch2 then none
          else some (utf8_emit (((ch - 0xD800) <<< 10) + (ch2 - 0xDC00) +
            0x10000), 10)
        | _, _, _, _ => none
      else none
    else some (utf8_emit ch, 4)
  | _, _, _, _ => none

/-- The decode loop of `_ajson_decode` (ajson.c lines 998-1045); the
input is the remaining window.  A trailing lone backslash reads the NUL
pad as its escape character, matching no switch case.  On a failed
`\uXXXX` the six source bytes (reading the NUL pad when the input ends
inside the sequence) are emitted verbatim and scanning resumes right
after the four quad positions. -/
def decodeLoop : List Nat → List Nat
  | [] => []
  | 92 :: rest =>
    match rest with
    | [] => []
    | e :: r2 =>
      if e = 34 then 34 :: decodeLoop r2
      else if e = 92 then 92 :: decodeLoop r2
      else if e = 47 then 47 :: decodeLoop r2
      else if e = 98 then 8 :: decodeLoop r2
      else if e = 102 then 12 :: decodeLoop r2
      else if e = 110 then 10 :: decodeLoop r2
      else if e = 114 then 13 :: decodeLoop r2
      else if e = 116 then 9 :: decodeLoop r2
      else if e = 117 then
        match unicode_to_utf8 r2 with
        | some (bs, n) => bs ++ decodeLoop (r2.drop n)
        | none =>
          92 :: 117 :: readAt r2 0 :: readAt r2 1 :: readAt r2 2 ::
            readAt r2 3 :: decodeLoop (r2.drop 4)
      else decodeLoop r2
  | c :: rest => c :: decodeLoop rest
  termination_by l => l.length
  decreasing_by all_goals
    (simp only [List.length_cons, List.length_drop]; omega)

/-- Index of the first backslash (the scan of `ajson_decode`,
ajson.c lines 1095-1104). -/
def ajson_decode_scan : List Nat → Option Nat
  | [] => none
  | c :: r =>
    if c = 92 then some 0
    else (ajson_decode_scan r).map (· + 1)

/-- `ajson_decode` (ajson.c line 1095): unchanged input when it contains
no backslash, otherwise verbatim prefix plus decoded remainder. -/
def ajson_decode (s : List Nat) : List Nat :=
  match ajson_decode_scan s with
  | none => s
  | some p => s.take p ++ decodeLoop (s.drop p)

/-! ## Parser (`ajson_parse`, ajson.c lines 1185-1932)

The goto machine is embedded state by state.  Positions index the
original bytes; the in-place NUL writes of the C parser are not modelled
because every value slice is taken before its terminating NUL is
written, every delimiter is pre-read into `ch` before being overwritten,
and parsing always resumes past the written byte.  Reads beyond the
window return the NUL pad (`readAt`), matching `ajson_parse_string`'s
pool copy.  Error positions are byte offsets from the window start
(`err->error_at - err->source`).  The states that loop on whitespace or
pop containers share one fuel budget; `4 * length + 16` transitions
always suffice since every cycle between states consumes input. -/
def isDigitB (c : Nat) : Bool := 48 ≤ c && c ≤ 57

def isSpaceB (c : Nat) : Bool := c == 32 || c == 9 || c == 13 || c == 10

/-- `b[s..e)`, the bytes of a scalar or key slice. -/
def sliceB (b : List Nat) (s e : Nat) : List Nat := (b.drop s).take (e - s)

/-- First position `≥ i` holding a non-digit (number-scanning loops
`while (ch >= '0' && ch <= '9') ch = *p++`); the NUL pad stops the
loop at the window end. -/
def findNonDigit (b : List Nat) (i : Nat) : Nat :=
  if i < b.length then
    (if isDigitB (readAt b i) then findNonDigit b (i+1) else i)
  else i
  termination_by b.length - i

/-- First position `≥ i` holding `"` (`while (p < ep && *p != '"') p++`),
or the window length when there is none. -/
def findQuote (b : List Nat) (i : Nat) : Nat :=
  if i < b.length then
    (if readAt b i = 34 then i else findQuote b (i+1))
  else i
  termination_by b.length - i

/-- First position `≥ i` holding `:` (`while (p < ep && *p != ':') p++`). -/
def findColon (b : List Nat) (i : Nat) : Nat :=
  if i < b.length then
    (if readAt b i = 58 then i else findColon b (i+1))
  else i
  termination_by b.length - i

/-- Run of consecutive backslashes ending just before position `q`
(the backtracking parity check of the string scanners). -/
def bsRun (b : List Nat) : Nat → Nat
  | 0 => 0
  | q + 1 => if readAt b q = 92 then bsRun b q + 1 else 0

/-- String-body scan (`start_string` / `keyed_start_string`): position
of the closing unescaped quote, or `none` when the window ends first.
A quote preceded by an odd run of backslashes is escaped and scanning
resumes after it. -/
def stringScan (b : List Nat) (i : Nat) : Option Nat :=
  let q := findQuote b i
  if h : q < b.length then
    (if bsRun b q % 2 = 1 then stringScan b (q+1) else some q)
  else none
  termination_by b.length - i
  decreasing_by
    have hge : i ≤ findQuote b i := by
      suffices H : ∀ n j, b.length - j ≤ n → j ≤ findQuote b j from
        H (b.length - i) i le_rfl
      intro n
      induction n with
      | zero =>
        intro j hj
        rw [findQuote.eq_def]
        have hnj : ¬ j < b.length := by omega
        simp [hnj]
      | succ n ih =>
        intro j hj
        rw [findQuote.eq_def]
        by_cases hb : j < b.length
        · simp only [hb, if_true]
          split
          · exact le_rfl
          · exact le_trans (by omega) (ih (j+1) (by omega))
        · simp [hb]
    omega

/-- Key scan (`get_end_of_key`): like `stringScan` but running off the
window is not an error there — the scan just stops at the window end. -/
def keyScan (b : List Nat) (i : Nat) : Nat :=
  let q := findQuote b i
  if h : q < b.length then
    (if bsRun b q % 2 = 1 then keyScan b (q+1) else q)
  else q
  termination_by b.length - i
  decreasing_by
    have hge : i ≤ findQuote b i := by
      suffices H : ∀ n j, b.length - j ≤ n → j ≤ findQuote b j from
        H (b.length - i) i le_rfl
      intro n
      induction n with
      | zero =>
        intro j hj
        rw [findQuote.eq_def]
        have hnj : ¬ j < b.length := by omega
        simp [hnj]
      | succ n ih =>
        intro j hj
        rw [findQuote.eq_def]
        by_cases hb : j < b.length
        · simp only [hb, if_true]
          split
          · exact le_rfl
          · exact le_trans (by omega) (ih (j+1) (by omega))
        · simp [hb]
    omega

/-- Exponent tail after `e`/`E` (shared by all number blocks): optional
sign, then at least one digit; returns the delimiter position (where the
C writes the terminating NUL after `p--`), or the error position. -/
def scanExpTail (b : List Nat) (i : Nat) : Except Nat Nat :=
  let i1 := if readAt b i = 43 ∨ readAt b i = 45 then i + 1 else i
  if isDigitB (readAt b i1) then Except.ok (findNonDigit b i1)
  else Except.error (i1 + 1)

/-- `decimal_number` / `keyed_decimal_number` (ajson.c lines 1878, 1526)
entered just past the `.`: at least one digit, then an optional
exponent. -/
def decimalNumberScan (b : List Nat) (i : Nat) : Except Nat Nat :=
  if isDigitB (readAt b i) then
    let j2 := findNonDigit b i
    if readAt b j2 = 101 ∨ readAt b j2 = 69 then scanExpTail b (j2 + 1)
    else Except.ok j2
  else Except.error (i + 1)

/-- `next_digit` (ajson.c line 1831, the value path): digits, then an
optional fraction handled inline, then an optional exponent.  Its caller
tags the literal `AJSON_NUMBER` on every success path — including the
fraction path. -/
def valueNextDigitScan (b : List Nat) (i : Nat) : Except Nat Nat :=
  let j := findNonDigit b i
  if readAt b j = 46 then decimalNumberScan b (j + 1)
  else if readAt b j = 101 ∨ readAt b j = 69 then scanExpTail b (j + 1)
  else Except.ok j

/-- `keyed_next_digit` (ajson.c line 1488, the object-value path):
digits; a `.` diverts to `keyed_decimal_number` (tag `AJSON_DECIMAL`),
otherwise an optional exponent with tag `AJSON_NUMBER`. -/
def keyedNextDigitScan (b : List Nat) (i : Nat) : Except Nat (Nat × ScalTag) :=
  let j := findNonDigit b i
  if readAt b j = 46 then
    (decimalNumberScan b (j + 1)).map (fun e => (e, ScalTag.tdecimal))
  else if readAt b j = 101 ∨ readAt b j = 69 then
    (scanExpTail b (j + 1)).map (fun e => (e, ScalTag.tnumber))
  else Except.ok (j, ScalTag.tnumber)

/-- A suspended container: the parent the C code reaches by following
`parent` pointers when the current container closes. -/
inductive PFrame where
  | inObj (done : List (List Nat × AJson)) (key : List Nat)
  | inArr (done : List AJson)
  deriving DecidableEq, Repr

/-- Parse outcome.  `.err pos` is an error node with
`error_at - source = pos`; `.crash` marks the NULL-pointer dereference
`arr->parent` in `start_value`'s `]` case when no array is open;
`.nofuel` never occurs for the fuel budget used by `ajson_parse`. -/
inductive PResult where
  | ok (t : AJson)
  | err (pos : Nat)
  | crash
  | nofuel
  deriving DecidableEq, Repr

def entriesOfList : List (List Nat × AJson) → AEntries
  | [] => .enil
  | (k, v) :: tl => .econs k v (entriesOfList tl)

def elemsOfList : List AJson → AElems
  | [] => .nil
  | v :: tl => .cons v (elemsOfList tl)

mutual
/-- `start_key`: scanning for a key (or `}`) inside an object. -/
def pStartKey (b : List Nat) (fuel : Nat) (stk : List PFrame)
    (done : List (List Nat × AJson)) (ac : Bool) (i : Nat) : PResult :=
  match fuel with
  | 0 => .nofuel
  | fuel + 1 =>
    if i ≥ b.length then .err i
    else
      let ch := readAt b i
      if ch = 34 then
        let q := keyScan b (i+1)
        let key := sliceB b (i+1) q
        pStartKeyObject b fuel stk done key false (findColon b (q+1) + 1)
      else if isSpaceB ch then pStartKey b fuel stk done ac (i+1)
      else if ch = 125 then
        if ac then .err (i+1)
        else
          match stk with
          | [] => .ok (.obj (entriesOfList done))
          | .inObj pd pk :: s' =>
            pLookForKey b fuel s'
              (pd ++ [(pk, .obj (entriesOfList done))]) ac (i+1)
          | .inArr ad :: s' =>
            pLookForNext b fuel s'
              (ad ++ [.obj (entriesOfList done)]) ac (i+1)
      else .err (i+1)

/-- `start_key_object`: scanning for the value of `key`. -/
def pStartKeyObject (b : List Nat) (fuel : Nat) (stk : List PFrame)
    (done : List (List Nat × AJson)) (key : List Nat) (ac : Bool)
    (i : Nat) : PResult :=
  match fuel with
  | 0 => .nofuel
  | fuel + 1 =>
    if i ≥ b.length then .err i
    else
      let ch := readAt b i
      if ch = 34 then
        match stringScan b (i+1) with
        | none => .err b.length
        | some q =>
          pLookForKey b fuel stk
            (done ++ [(key, .str (sliceB b (i+1) q))]) ac (q+1)
      else if isSpaceB ch then pStartKeyObject b fuel stk done key ac (i+1)
      else if ch = 123 then
        pStartKey b fuel (.inObj done key :: stk) [] ac (i+1)
      else if ch = 91 then
        pStartValue b fuel (.inObj done key :: stk) (some []) ac (i+1)
      else if ch = 45 then
        let ch2 := readAt b (i+1)
        if ch2 = 48 then
          let la := readAt b (i+2)
          if la = 46 then
            match decimalNumberScan b (i+3) with
            | .error e => .err e
            | .ok j =>
              pLookForKey b fuel stk
                (done ++ [(key, .scalar .tdecimal (sliceB b i j))]) ac j
          else if la = 101 ∨ la = 69 then
            match keyedNextDigitScan b (i+2) with
            | .error e => .err e
            | .ok (j, tg) =>
              pLookForKey b fuel stk
                (done ++ [(key, .scalar tg (sliceB b i j))]) ac j
          else if isDigitB la then .err (i+2)
          else
            pLookForKey b fuel stk
              (done ++ [(key, .scalar .tnumber (sliceB b i (i+2)))]) ac (i+2)
        else if isDigitB ch2 ∧ ch2 ≠ 48 then
          match keyedNextDigitScan b (i+2) with
          | .error e => .err e
          | .ok (j, tg) =>
            pLookForKey b fuel stk
              (done ++ [(key, .scalar tg (sliceB b i j))]) ac j
        else .err (i+2)
      else if ch = 48 then
        if i + 1 < b.length then
          let la := readAt b (i+1)
          if la = 46 then
            match decimalNumberScan b (i+2) with
            | .error e => .err e
            | .ok j =>
              pLookForKey b fuel stk
                (done ++ [(key, .scalar .tdecimal (sliceB b i j))]) ac j
          else if la = 101 ∨ la = 69 then
            match keyedNextDigitScan b (i+1) with
            | .error e => .err e
            | .ok (j, tg) =>
              pLookForKey b fuel stk
                (done ++ [(key, .scalar tg (sliceB b i j))]) ac j
          else if isDigitB la then .err (i+1)
          else
            pLookForKey b fuel stk
              (done ++ [(key, .scalar .tzero [48])]) ac (i+1)
        else
          pLookForKey b fuel stk
            (done ++ [(key, .scalar .tzero [48])]) ac (i+1)
      else if isDigitB ch then
        match keyedNextDigitScan b (i+1) with
        | .error e => .err e
        | .ok (j, tg) =>
          pLookForKey b fuel stk
            (done ++ [(key, .scalar tg (sliceB b i j))]) ac j
      else if ch = 116 then
        if i + 1 + 3 ≥ b.length then .err (i+1)
        else if readAt b (i+1) ≠ 114 then .err (i+2)
        else if readAt b (i+2) ≠ 117 then .err (i+3)
        else if readAt b (i+3) ≠ 101 then .err (i+4)
        else
          pLookForKey b fuel stk
            (done ++ [(key, .scalar .ttrue [116, 114, 117, 101])]) ac (i+4)
      else if ch = 102 then
        if i + 1 + 4 ≥ b.length then .err (i+1)
        else if readAt b (i+1) ≠ 97 then .err (i+2)
        else if readAt b (i+2) ≠ 108 then .err (i+3)
        else if readAt b (i+3) ≠ 115 then .err (i+4)
        else if readAt b (i+4) ≠ 101 then .err (i+5)
        else
          pLookForKey b fuel stk
            (done ++ [(key, .scalar .tfalse [102, 97, 108, 115, 101])]) ac (i+5)
      else if ch = 110 then
        if readAt b (i+1) ≠ 117 then .err (i+2)
        else if readAt b (i+2) ≠ 108 then .err (i+3)
        else if readAt b (i+3) ≠ 108 then .err (i+4)
        else
          pLookForKey b fuel stk
            (done ++ [(key, .scalar .tnull [110, 117, 108, 108])]) ac (i+4)
      else .err (i+1)

/-- `look_for_key`: after an object entry, expecting `,` or `}`. -/
def pLookForKey (b : List Nat) (fuel : Nat) (stk : List PFrame)
    (done : List (List Nat × AJson)) (ac : Bool) (i : Nat) : PResult :=
  match fuel with
  | 0 => .nofuel
  | fuel + 1 =>
    let ch := readAt b i
    if ch = 44 then
      if i ≥ b.length then .err i
      else pStartKey b fuel stk done true (i+1)
    else if ch = 125 then
      if ac then .err i
      else
        match stk with
        | [] => .ok (.obj (entriesOfList done))
        | .inObj pd pk :: s' =>
          pLookForKey b fuel s'
            (pd ++ [(pk, .obj (entriesOfList done))]) ac (i+1)
        | .inArr ad :: s' =>
          pLookForNext b fuel s'
            (ad ++ [.obj (entriesOfList done)]) ac (i+1)
    else if isSpaceB ch then pLookForKey b fuel stk done ac (i+1)
    else .err i

/-- `add_string`'s tail: attach a finished value in value context
(`!arr` returns it as the whole document). -/
def pAddValue (b : List Nat) (fuel : Nat) (stk : List PFrame)
    (actx : Option (List AJson)) (v : AJson) (i : Nat) : PResult :=
  match fuel with
  | 0 => .nofuel
  | fuel + 1 =>
    match actx with
    | none => .ok v
    | some ad => pLookForNext b fuel stk (ad ++ [v]) false i

/-- `start_value`: scanning for an array element or top-level value. -/
def pStartValue (b : List Nat) (fuel : Nat) (stk : List PFrame)
    (actx : Option (List AJson)) (ac : Bool) (i : Nat) : PResult :=
  match fuel with
  | 0 => .nofuel
  | fuel + 1 =>
    if i ≥ b.length then .err i
    else
      let ch := readAt b i
      if ch = 34 then
        match stringScan b (i+1) with
        | none => .err b.length
        | some q => pAddValue b fuel stk actx (.str (sliceB b (i+1) q)) (q+1)
      else if isSpaceB ch then pStartValue b fuel stk actx ac (i+1)
      else if ch = 123 then
        match actx with
        | none => pStartKey b fuel stk [] false (i+1)
        | some ad => pStartKey b fuel (.inArr ad :: stk) [] false (i+1)
      else if ch = 91 then
        match actx with
        | none => pStartValue b fuel stk (some []) false (i+1)
        | some ad => pStartValue b fuel (.inArr ad :: stk) (some []) false (i+1)
      else if ch = 93 then
        if ac then .err (i+1)
        else
          match actx with
          | none => .crash
          | some ad =>
            match stk with
            | [] => .ok (.arr (elemsOfList ad))
            | .inObj pd pk :: s' =>
              pLookForKey b fuel s'
                (pd ++ [(pk, .arr (elemsOfList ad))]) ac (i+1)
            | .inArr ad' :: s' =>
              pLookForNext b fuel s'
                (ad' ++ [.arr (elemsOfList ad)]) ac (i+1)
      else if ch = 45 then
        let ch2 := readAt b (i+1)
        if ch2 = 48 then
          let la := readAt b (i+2)
          if la = 46 then
            match decimalNumberScan b (i+3) with
            | .error e => .err e
            | .ok j =>
              pAddValue b fuel stk actx (.scalar .tdecimal (sliceB b i j)) j
          else if la = 101 ∨ la = 69 then
            match valueNextDigitScan b (i+2) with
            | .error e => .err e
            | .ok j =>
              pAddValue b fuel stk actx (.scalar .tnumber (sliceB b i j)) j
          else if isDigitB la then .err (i+2)
          else
            pAddValue b fuel stk actx
              (.scalar .tnumber (sliceB b i (i+2))) (i+2)
        else if isDigitB ch2 ∧ ch2 ≠ 48 then
          match valueNextDigitScan b (i+2) with
          | .error e => .err e
          | .ok j =>
            pAddValue b fuel stk actx (.scalar .tnumber (sliceB b i j)) j
        else .err (i+2)
      else if ch = 48 then
        if i + 1 < b.length then
          let la := readAt b (i+1)
          if la = 46 then
            match decimalNumberScan b (i+2) with
            | .error e => .err e
            | .ok j =>
              pAddValue b fuel stk actx (.scalar .tdecimal (sliceB b i j)) j
          else if la = 101 ∨ la = 69 then
            match valueNextDigitScan b (i+1) with
            | .error e => .err e
            | .ok j =>
              pAddValue b fuel stk actx (.scalar .tnumber (sliceB b i j)) j
          else if isDigitB la then .err (i+1)
          else pAddValue b fuel stk actx (.scalar .tzero [48]) (i+1)
        else pAddValue b fuel stk actx (.scalar .tzero [48]) (i+1)
      else if isDigitB ch then
        match valueNextDigitScan b (i+1) with
        | .error e => .err e
        | .ok j => pAddValue b fuel stk actx (.scalar .tnumber (sliceB b i j)) j
      else if ch = 116 then
        if readAt b (i+1) ≠ 114 then .err (i+2)
        else if readAt b (i+2) ≠ 117 then .err (i+3)
        else if readAt b (i+3) ≠ 101 then .err (i+4)
        else
          pAddValue b fuel stk actx
            (.scalar .ttrue [116, 114, 117, 101]) (i+4)
      else if ch = 102 then
        if readAt b (i+1) ≠ 97 then .err (i+2)
        else if readAt b (i+2) ≠ 108 then .err (i+3)
        else if readAt b (i+3) ≠ 115 then .err (i+4)
        else if readAt b (i+4) ≠ 101 then .err (i+5)
        else
          pAddValue b fuel stk actx
            (.scalar .tfalse [102, 97, 108, 115, 101]) (i+5)
      else if ch = 110 then
        if readAt b (i+1) ≠ 117 then .err (i+2)
        else if readAt b (i+2) ≠ 108 then .err (i+3)
        else if readAt b (i+3) ≠ 108 then .err (i+4)
        else
          pAddValue b fuel stk actx
            (.scalar .tnull [110, 117, 108, 108]) (i+4)
      else .err (i+1)

/-- `look_for_next_object`: after an array element, expecting `,` or `]`. -/
def pLookForNext (b : List Nat) (fuel : Nat) (stk : List PFrame)
    (ad : List AJson) (ac : Bool) (i : Nat) : PResult :=
  match fuel with
  | 0 => .nofuel
  | fuel + 1 =>
    let ch := readAt b i
    if ch = 44 then
      if i ≥ b.length then .err i
      else pStartValue b fuel stk (some ad) true (i+1)
    else if ch = 93 then
      if ac then .err i
      else
        match stk with
        | [] => .ok (.arr (elemsOfList ad))
        | .inObj pd pk :: s' =>
          pLookForKey b fuel s'
            (pd ++ [(pk, .arr (elemsOfList ad))]) ac (i+1)
        | .inArr ad' :: s' =>
          pLookForNext b fuel s'
            (ad' ++ [.arr (elemsOfList ad)]) ac (i+1)
    else if isSpaceB ch then pLookForNext b fuel stk ad ac (i+1)
    else .err i
end

/-- `ajson_parse` over the window `[0, b.length)`.  An empty window
errors with `error_at` one past the start (`p++` before the jump to
`bad_character`); a window whose first byte is `{` enters object mode,
anything else enters value mode. -/
def ajson_parse (b : List Nat) : PResult :=
  if b.length = 0 then .err 1
  else if readAt b 0 ≠ 123 then
    pStartValue b (4 * b.length + 16) [] none false 0
  else pStartKey b (4 * b.length + 16) [] [] false 1

/-! ## Object lookup engine (`impl/ajson.h` lines 1344-1925)

An object is its entry list in insertion order (`head`/`tail` chain) —
keys paired with value identifiers — plus `root`, which holds at most
one lookup index.  The C encodes which index `root` points at through
`num_sorted_entries` (positive for the sorted snapshot, zero for the
red-black tree); here the two are separate constructors, so "both
indexes active" is unrepresentable, exactly as in the struct with its
single `root` pointer.

The index structures come from the external the-macro-library.
Modelled from the spec: `__ajson_sort` (`macro_sort`) orders the
snapshot's node-pointer array by `strcmp` on keys and `__ajson_search`
(`macro_bsearch_first_kv`) returns the first `strcmp`-equal node of
that array, while `__ajson_insert` / `__ajson_find` / `macro_map_erase`
(`macro_map`) maintain a tree of nodes keyed by `strcmp` with the same
membership.  Over distinct keys both indexes therefore realise exactly
"the set of entry nodes present when the index was built", so each is
modelled as the key list captured at build time; a hit returns the
node's value field, which later in-place updates (`ajsono_set` on an
existing key) overwrite, so a hit reads the value currently stored in
the live entry list. -/
structure OEntry where
  key : List Nat
  val : Nat
  deriving DecidableEq, Repr

/-- The single `root` pointer: `snap` with `num_sorted_entries > 0`,
`tree` with `num_sorted_entries == 0`. -/
inductive ORoot where
  | snap (keys : List (List Nat))
  | tree (keys : List (List Nat))
  deriving DecidableEq, Repr

structure ObjState where
  entries : List OEntry
  root : Option ORoot
  deriving DecidableEq, Repr

/-- The node a key hit dereferences: the live entry currently holding
the key (first in insertion order). -/
def liveVal (es : List OEntry) (k : List Nat) : Option Nat :=
  match es.find? (fun e => e.key == k) with
  | none => none
  | some e => some e.val

def okeys (es : List OEntry) : List (List Nat) := es.map OEntry.key

/-- `_ajsono_fill` (ajson.c line 1940): copy the live entries into a
freshly sorted snapshot; an empty copy leaves `root` null. -/
def _ajsono_fill (s : ObjState) : ObjState :=
  if s.entries = [] then { s with root := none }
  else { s with root := some (.snap (okeys s.entries)) }

/-- `_ajsono_fill_tree` (impl/ajson.h line 1694): clear `root`, then
insert every live entry into a fresh tree. -/
def _ajsono_fill_tree (s : ObjState) : ObjState :=
  if s.entries = [] then { s with root := none }
  else { s with root := some (.tree (okeys s.entries)) }

/-- `ajsono_get` (impl/ajson.h line 1384): rebuild the snapshot when
`root` is null or holds the tree (`num_sorted_entries == 0` guard),
then binary-search the snapshot. -/
def ajsono_get (s : ObjState) (k : List Nat) : Option Nat × ObjState :=
  let s' :=
    match s.root with
    | some (.snap _) => s
    | _ => if s.entries = [] then s else _ajsono_fill s
  match s'.root with
  | some (.snap keys) =>
    (if keys.contains k then liveVal s'.entries k else none, s')
  | _ => (none, s')

/-- `ajsono_find_node` / `ajsono_find` (impl/ajson.h lines 1704-1720):
rebuild the tree when `root` is null or holds the snapshot
(`num_sorted_entries` nonzero), then search the tree. -/
def ajsono_find (s : ObjState) (k : List Nat) : Option Nat × ObjState :=
  let s' :=
    match s.root with
    | some (.tree _) => s
    | _ => if s.entries = [] then s else _ajsono_fill_tree s
  match s'.root with
  | some (.tree keys) =>
    (if keys.contains k then liveVal s'.entries k else none, s')
  | _ => (none, s')

/-- `ajsono_append` (impl/ajson.h line 1738): link a new tail entry;
no index maintenance at all. -/
def ajsono_append (s : ObjState) (k : List Nat) (v : Nat) : ObjState :=
  { s with entries := s.entries ++ [⟨k, v⟩] }

def setFirst : List OEntry → List Nat → Nat → List OEntry
  | [], _, _ => []
  | e :: r, k, v =>
    if e.key = k then ⟨e.key, v⟩ :: r else e :: setFirst r k v

/-- `ajsono_set` (impl/ajson.h line 1881): overwrite the first matching
entry in place (no index change), else append and maintain the active
index — drop the snapshot, or insert the new tail into the tree. -/
def ajsono_set (s : ObjState) (k : List Nat) (v : Nat) : ObjState :=
  if (s.entries.find? (fun e => e.key == k)).isSome then
    { s with entries := setFirst s.entries k v }
  else
    let ents := s.entries ++ [⟨k, v⟩]
    match s.root with
    | some (.snap _) => { entries := ents, root := none }
    | some (.tree keys) => { entries := ents, root := some (.tree (keys ++ [k])) }
    | none => { entries := ents, root := none }

def eraseFirst : List OEntry → List Nat → List OEntry
  | [], _ => []
  | e :: r, k => if e.key = k then r else e :: eraseFirst r k

def eraseKey : List (List Nat) → List Nat → List (List Nat)
  | [], _ => []
  | k' :: r, k => if k' = k then r else k' :: eraseKey r k

/-- `ajsono_remove` (impl/ajson.h line 1914) via `ajsono_erase`
(line 1344): unlink the first matching entry; a live snapshot is
dropped, a live tree has the node erased from it. -/
def ajsono_remove (s : ObjState) (k : List Nat) : Bool × ObjState :=
  if (s.entries.find? (fun e => e.key == k)).isSome then
    let ents := eraseFirst s.entries k
    let root' :=
      match s.root with
      | some (.snap _) => none
      | some (.tree keys) => some (.tree (eraseKey keys k))
      | none => none
    (true, { entries := ents, root := root' })
  else (false, s)

/-- A lookup call of the C1 interleaving. -/
inductive LkOp where
  | get (k : List Nat)
  | find (k : List Nat)
  deriving DecidableEq, Repr

def LkOp.key : LkOp → List Nat
  | .get k => k
  | .find k => k

def runLk : ObjState → List LkOp → List (Option Nat) × ObjState
  | s, [] => ([], s)
  | s, .get k :: ops =>
    let r := ajsono_get s k
    let t := runLk r.2 ops
    (r.1 :: t.1, t.2)
  | s, .find k :: ops =>
    let r := ajsono_find s k
    let t := runLk r.2 ops
    (r.1 :: t.1, t.2)

/-- The index over `root` is never stale junk: it is absent, or it is
an index built from the current entry list. -/
def IndexConsistent (s : ObjState) : Prop :=
  s.root = none ∨
  (s.root = some (.snap (okeys s.entries)) ∧ s.entries ≠ []) ∨
  (s.root = some (.tree (okeys s.entries)) ∧ s.entries ≠ [])

/-! ## Array access (`impl/ajson.h` lines 1175-1225)

An array value is its element list (`head`/`tail` chain of value
identifiers); `_ajsona_fill` materialises the chain into the
direct-access table in the same order. -/
/-- `_ajsona_fill` (impl/ajson.h line 1175): the table lists the chain
in order. -/
def _ajsona_fill (elems : List Nat) : List Nat := elems

/-- `ajsona_nth` (impl/ajson.h line 1187): range check, then the
direct-access table. -/
def ajsona_nth (elems : List Nat) (nth : Int) : Option Nat :=
  if nth < 0 ∨ elems.length ≤ nth.toNat then none
  else (_ajsona_fill elems).get? nth.toNat

/-- The `while (nth) { nth--; n = n->next; }` walk (and, on the
reversed list, the `n = n->previous` walk). -/
def chainWalk : List Nat → Nat → Option Nat
  | [], _ => none
  | x :: _, 0 => some x
  | _ :: r, n + 1 => chainWalk r n

/-- `ajsona_scan` (impl/ajson.h line 1204): range check, then walk
`num_entries - nth - 1` links back from the tail when `nth` is past the
midpoint, else `nth` links forward from the head. -/
def ajsona_scan (elems : List Nat) (nth : Int) : Option Nat :=
  if nth < 0 ∨ elems.length ≤ nth.toNat then none
  else if elems.length >>> 1 < nth.toNat then
    chainWalk elems.reverse (elems.length - nth.toNat - 1)
  else chainWalk elems nth.toNat

/-! ## Type predicates (`impl/ajson.h` lines 1108-1138)

A node reference is `Option CNode`; `none` is the NULL pointer, and
`j && ...` short-circuits to false on it. -/
def AJSON_ERROR : Nat := 0

def AJSON_OBJECT : Nat := 1

def AJSON_ARRAY : Nat := 2

def AJSON_BINARY : Nat := 3

def AJSON_NULL : Nat := 4

def AJSON_STRING : Nat := 5

def AJSON_FALSE : Nat := 6

def AJSON_ZERO : Nat := 7

def AJSON_NUMBER : Nat := 8

def AJSON_DECIMAL : Nat := 9

def AJSON_TRUE : Nat := 10

structure CNode where
  type : Nat
  deriving DecidableEq, Repr

def ajson_is_error (j : Option CNode) : Bool :=
  match j with
  | none => false
  | some n => n.type == AJSON_ERROR

def ajson_is_object (j : Option CNode) : Bool :=
  match j with
  | none => false
  | some n => n.type == AJSON_OBJECT

def ajson_is_array (j : Option CNode) : Bool :=
  match j with
  | none => false
  | some n => n.type == AJSON_ARRAY

def ajson_is_null (j : Option CNode) : Bool :=
  match j with
  | none => false
  | some n => n.type == AJSON_NULL

def ajson_is_bool (j : Option CNode) : Bool :=
  match j with
  | none => false
  | some n => n.type == AJSON_TRUE || n.type == AJSON_FALSE

def ajson_is_string (j : Option CNode) : Bool :=
  match j with
  | none => false
  | some n => n.type == AJSON_STRING

def ajson_is_number (j : Option CNode) : Bool :=
  match j with
  | none => false
  | some n =>
    n.type == AJSON_ZERO || n.type == AJSON_NUMBER || n.type == AJSON_DECIMAL

/-- The per-byte escape table as the specification words it: the eight
named characters escape to two bytes, any other byte below 0x20 (which
includes the NUL byte) becomes an uppercase `\u00XX`, everything else
passes unchanged. -/
def escape_map_spec (c : Nat) : List Nat :=
  if c = 34 then [92, 34]
  else if c = 92 then [92, 92]
  else if c = 47 then [92, 47]
  else if c = 8 then [92, 98]
  else if c = 12 then [92, 102]
  else if c = 10 then [92, 110]
  else if c = 13 then [92, 114]
  else if c = 9 then [92, 116]
  else if c < 0x20 then [92, 117, 48, 48, hexUp (c / 16), hexUp (c % 16)]
  else [c]

/-- A byte the encoder's scan stops at, as the specification words it. -/
def needs_escape_spec (c : Nat) : Prop :=
  c = 0 ∨ c = 34 ∨ c = 92 ∨ c = 47 ∨ c < 0x20

instance (c : Nat) : Decidable (needs_escape_spec c) := by
  unfold needs_escape_spec; infer_instance

theorem readAt_cons_succ (x : Nat) (b : List Nat) (i : Nat) :
    readAt (x :: b) (i+1) = readAt b i := by
  simp [readAt]

/-- Dropping the head of the buffer shifts the scan position by one. -/
theorem copyFrom_cons (b : List Nat) (i : Nat) (x : Nat) :
    copyFrom (x :: b) (i+1) = copyFrom b i := by
  suffices H : ∀ n b i, b.length - i ≤ n →
      copyFrom (x :: b) (i+1) = copyFrom b i from H (b.length - i) b i le_rfl
  intro n
  induction n with
  | zero =>
    intro b i h
    rw [copyFrom.eq_def (x :: b), copyFrom.eq_def b]
    have h1 : ¬ i < b.length := by omega
    have h2 : ¬ i + 1 < (x :: b).length := by simp; omega
    simp [h1, h2]
  | succ n ih =>
    intro b i hle
    rw [copyFrom.eq_def (x :: b), copyFrom.eq_def b]
    by_cases hi : i < b.length
    case neg =>
      have hi' : ¬ i + 1 < (x :: b).length := by simp; omega
      simp [hi, hi']
    case pos
    · have hi' : i + 1 < (x :: b).length := by simp; omega
      have p2 : i + 1 + 2 = i + 2 + 1 := by omega
      have p3 : i + 1 + 3 = i + 3 + 1 := by omega
      have p4 : i + 1 + 4 = i + 4 + 1 := by omega
      rw [p2, p3, p4]
      have c1 : copyFrom (x :: b) (i + 1 + 1) = copyFrom b (i + 1) :=
        ih b (i+1) (by omega)
      have c2 : copyFrom (x :: b) (i + 2 + 1) = copyFrom b (i + 2) :=
        ih b (i+2) (by omega)
      have c3 : copyFrom (x :: b) (i + 3 + 1) = copyFrom b (i + 3) :=
        ih b (i+3) (by omega)
      have c4 : copyFrom (x :: b) (i + 4 + 1) = copyFrom b (i + 4) :=
        ih b (i+4) (by omega)
      simp only [hi, hi', if_true, readAt_cons_succ, List.length_cons,
        Nat.add_lt_add_iff_right, c1, c2, c3, c4]

theorem copyFrom_oob (b : List Nat) (i : Nat) (h : ¬ i < b.length) :
    copyFrom b i = [] := by
  rw [copyFrom.eq_def]; simp [h]

theorem copyFrom_length_le (b : List Nat) (i : Nat) :
    (copyFrom b i).length ≤ b.length - i := by
  suffices H : ∀ n b i, b.length - i ≤ n →
      (copyFrom b i).length ≤ b.length - i from H (b.length - i) b i le_rfl
  intro n
  induction n with
  | zero =>
    intro b i h
    have h1 : ¬ i < b.length := by omega
    rw [copyFrom_oob b i h1]; simp
  | succ n ih =>
    intro b i hle
    by_cases hi : i < b.length
    case neg => rw [copyFrom_oob b i hi]; simp
    case pos =>
      have I1 := ih b (i+1) (by omega)
      have I2 := ih b (i+2) (by omega)
      have I3 := ih b (i+3) (by omega)
      have I4 := ih b (i+4) (by omega)
      rw [copyFrom.eq_def]
      simp only [hi, if_true]
      split_ifs <;> ((try simp only [List.length_cons]); (try simp only [Bool.and_eq_true, decide_eq_true_eq] at *); omega)

/-! Mask arithmetic: the start-byte classes are mutually exclusive. -/
theorem and_absorb_eq (c x y v : Nat) (hxy : x &&& y = y) (h : c &&& x = v) :
    c &&& y = v &&& y := by
  conv_lhs => rw [← hxy]
  rw [← Nat.and_assoc, h]

theorem mask2_not_ascii (c : Nat) (h : c &&& 0xE0 = 0xC0) : ¬ c < 0x80 := by
  have hle : c &&& 0xE0 ≤ c := Nat.and_le_left
  omega

theorem mask3_not_ascii (c : Nat) (h : c &&& 0xF0 = 0xE0) : ¬ c < 0x80 := by
  have hle : c &&& 0xF0 ≤ c := Nat.and_le_left
  omega

theorem mask4_not_ascii (c : Nat) (h : c &&& 0xF8 = 0xF0) : ¬ c < 0x80 := by
  have hle : c &&& 0xF8 ≤ c := Nat.and_le_left
  omega

theorem mask3_not_mask2 (c : Nat) (h : c &&& 0xF0 = 0xE0) :
    ¬ c &&& 0xE0 = 0xC0 := by
  intro h2
  have := and_absorb_eq c 0xF0 0xE0 0xE0 (by decide) h
  simp only [show (0xE0 : Nat) &&& 0xE0 = 0xE0 by decide] at this
  omega

theorem mask4_not_mask2 (c : Nat) (h : c &&& 0xF8 = 0xF0) :
    ¬ c &&& 0xE0 = 0xC0 := by
  intro h2
  have := and_absorb_eq c 0xF8 0xE0 0xF0 (by decide) h
  simp only [show (0xF0 : Nat) &&& 0xE0 = 0xE0 by decide] at this
  omega

theorem mask4_not_mask3 (c : Nat) (h : c &&& 0xF8 = 0xF0) :
    ¬ c &&& 0xF0 = 0xE0 := by
  intro h2
  have := and_absorb_eq c 0xF8 0xF0 0xF0 (by decide) h
  simp only [show (0xF0 : Nat) &&& 0xF0 = 0xF0 by decide] at this
  omega

/-! List-level unfolding equations for the filter. -/
theorem copy_nil : ajson_copy_valid_utf8 [] = [] := by
  simp [ajson_copy_valid_utf8, copyFrom_oob]

theorem copy_cons_ascii (c : Nat) (rest : List Nat) (h : c < 0x80) :
    ajson_copy_valid_utf8 (c :: rest) = c :: ajson_copy_valid_utf8 rest := by
  show copyFrom (c :: rest) 0 = c :: copyFrom rest 0
  rw [copyFrom.eq_def]
  simp [readAt, h, copyFrom_cons]

theorem copy_cons2_ok (c c2 : Nat) (r : List Nat) (h2 : c &&& 0xE0 = 0xC0)
    (hc : isCont c2 = true) :
    ajson_copy_valid_utf8 (c :: c2 :: r) =
      c :: c2 :: ajson_copy_valid_utf8 r := by
  show copyFrom (c :: c2 :: r) 0 = c :: c2 :: copyFrom r 0
  rw [copyFrom.eq_def]
  have h1 := mask2_not_ascii c h2
  have e2 : copyFrom (c :: c2 :: r) 2 = copyFrom r 0 := by
    rw [show (2 : Nat) = 1 + 1 from rfl, copyFrom_cons, copyFrom_cons]
  simp [readAt, h1, h2, hc, e2]

theorem copy_cons2_bad (c c2 : Nat) (r : List Nat) (h2 : c &&& 0xE0 = 0xC0)
    (hc : ¬ isCont c2 = true) :
    ajson_copy_valid_utf8 (c :: c2 :: r) =
      ajson_copy_valid_utf8 (c2 :: r) := by
  show copyFrom (c :: c2 :: r) 0 = copyFrom (c2 :: r) 0
  rw [copyFrom.eq_def]
  have h1 := mask2_not_ascii c h2
  simp [readAt, h1, h2, hc, copyFrom_cons]

theorem copy_cons2_end (c : Nat) (h2 : c &&& 0xE0 = 0xC0) :
    ajson_copy_valid_utf8 [c] = [] := by
  show copyFrom [c] 0 = []
  rw [copyFrom.eq_def]
  have h1 := mask2_not_ascii c h2
  simp [readAt, h1, h2, copyFrom_oob]

theorem copy_cons3_ok (c c2 c3 : Nat) (r : List Nat) (h3 : c &&& 0xF0 = 0xE0)
    (hc : isCont c2 = true) (hc' : isCont c3 = true) :
    ajson_copy_valid_utf8 (c :: c2 :: c3 :: r) =
      c :: c2 :: c3 :: ajson_copy_valid_utf8 r := by
  show copyFrom (c :: c2 :: c3 :: r) 0 = c :: c2 :: c3 :: copyFrom r 0
  rw [copyFrom.eq_def]
  have h1 := mask3_not_ascii c h3
  have h2 := mask3_not_mask2 c h3
  have e3 : copyFrom (c :: c2 :: c3 :: r) 3 = copyFrom r 0 := by
    rw [show (3 : Nat) = 2 + 1 from rfl, copyFrom_cons,
        show (2 : Nat) = 1 + 1 from rfl, copyFrom_cons, copyFrom_cons]
  simp [readAt, h1, h2, h3, hc, hc', e3]

theorem copy_cons3_bad (c c2 c3 : Nat) (r : List Nat) (h3 : c &&& 0xF0 = 0xE0)
    (hc : ¬ (isCont c2 && isCont c3) = true) :
    ajson_copy_valid_utf8 (c :: c2 :: c3 :: r) =
      ajson_copy_valid_utf8 (c2 :: c3 :: r) := by
  show copyFrom (c :: c2 :: c3 :: r) 0 = copyFrom (c2 :: c3 :: r) 0
  rw [copyFrom.eq_def]
  have h1 := mask3_not_ascii c h3
  have h2 := mask3_not_mask2 c h3
  simp [readAt, h1, h2, h3, hc, copyFrom_cons]

theorem copy_cons3_short (c : Nat) (rest : List Nat) (h3 : c &&& 0xF0 = 0xE0)
    (hs : rest.length < 2) :
    ajson_copy_valid_utf8 (c :: rest) = ajson_copy_valid_utf8 rest := by
  show copyFrom (c :: rest) 0 = copyFrom rest 0
  rw [copyFrom.eq_def]
  have h1 := mask3_not_ascii c h3
  have h2 := mask3_not_mask2 c h3
  have g2 : ¬ 2 < rest.length + 1 := by omega
  have g3 : ¬ 3 < rest.length + 1 := by omega
  simp [readAt, h1, h2, h3, g2, g3, copyFrom_cons]

theorem copy_cons4_ok (c c2 c3 c4 : Nat) (r : List Nat)
    (h4 : c &&& 0xF8 = 0xF0) (hc : isCont c2 = true)
    (hc' : isCont c3 = true) (hc'' : isCont c4 = true) :
    ajson_copy_valid_utf8 (c :: c2 :: c3 :: c4 :: r) =
      c :: c2 :: c3 :: c4 :: ajson_copy_valid_utf8 r := by
  show copyFrom (c :: c2 :: c3 :: c4 :: r) 0 = c :: c2 :: c3 :: c4 :: copyFrom r 0
  rw [copyFrom.eq_def]
  have h1 := mask4_not_ascii c h4
  have h2 := mask4_not_mask2 c h4
  have h3 := mask4_not_mask3 c h4
  have e4 : copyFrom (c :: c2 :: c3 :: c4 :: r) 4 = copyFrom r 0 := by
    rw [show (4 : Nat) = 3 + 1 from rfl, copyFrom_cons,
        show (3 : Nat) = 2 + 1 from rfl, copyFrom_cons,
        show (2 : Nat) = 1 + 1 from rfl, copyFrom_cons, copyFrom_cons]
  simp [readAt, h1, h2, h3, h4, hc, hc', hc'', e4]

theorem copy_cons4_bad (c c2 c3 c4 : Nat) (r : List Nat)
    (h4 : c &&& 0xF8 = 0xF0)
    (hc : ¬ (isCont c2 && isCont c3 && isCont c4) = true) :
    ajson_copy_valid_utf8 (c :: c2 :: c3 :: c4 :: r) =
      ajson_copy_valid_utf8 (c2 :: c3 :: c4 :: r) := by
  show copyFrom (c :: c2 :: c3 :: c4 :: r) 0 = copyFrom (c2 :: c3 :: c4 :: r) 0
  rw [copyFrom.eq_def]
  have h1 := mask4_not_ascii c h4
  have h2 := mask4_not_mask2 c h4
  have h3 := mask4_not_mask3 c h4
  simp [readAt, h1, h2, h3, h4, hc, copyFrom_cons]

theorem copy_cons4_short (c : Nat) (rest : List Nat) (h4 : c &&& 0xF8 = 0xF0)
    (hs : rest.length < 3) :
    ajson_copy_valid_utf8 (c :: rest) = ajson_copy_valid_utf8 rest := by
  show copyFrom (c :: rest) 0 = copyFrom rest 0
  rw [copyFrom.eq_def]
  have h1 := mask4_not_ascii c h4
  have h2 := mask4_not_mask2 c h4
  have h3 := mask4_not_mask3 c h4
  have g3 : ¬ 3 < rest.length + 1 := by omega
  simp [readAt, h1, h2, h3, h4, g3, copyFrom_cons]

theorem copy_cons_invalid (c : Nat) (rest : List Nat) (h1 : ¬ c < 0x80)
    (h2 : ¬ c &&& 0xE0 = 0xC0) (h3 : ¬ c &&& 0xF0 = 0xE0)
    (h4 : ¬ c &&& 0xF8 = 0xF0) :
    ajson_copy_valid_utf8 (c :: rest) = ajson_copy_valid_utf8 rest := by
  show copyFrom (c :: rest) 0 = copyFrom rest 0
  rw [copyFrom.eq_def]
  simp [readAt, h1, h2, h3, h4, copyFrom_cons]

theorem validFrom_oob (b : List Nat) (i : Nat) (h : ¬ i < b.length) :
    validFrom b i = true := by
  rw [validFrom.eq_def]; simp [h]

theorem validFrom_cons (b : List Nat) (i : Nat) (x : Nat) :
    validFrom (x :: b) (i+1) = validFrom b i := by
  suffices H : ∀ n b i, b.length - i ≤ n →
      validFrom (x :: b) (i+1) = validFrom b i from H (b.length - i) b i le_rfl
  intro n
  induction n with
  | zero =>
    intro b i h
    rw [validFrom.eq_def (x :: b), validFrom.eq_def b]
    have h1 : ¬ i < b.length := by omega
    have h2 : ¬ i + 1 < (x :: b).length := by simp; omega
    simp [h1, h2]
  | succ n ih =>
    intro b i hle
    rw [validFrom.eq_def (x :: b), validFrom.eq_def b]
    by_cases hi : i < b.length
    case neg =>
      have hi' : ¬ i + 1 < (x :: b).length := by simp; omega
      simp [hi, hi']
    case pos
    · have hi' : i + 1 < (x :: b).length := by simp; omega
      have p2 : i + 1 + 2 = i + 2 + 1 := by omega
      have p3 : i + 1 + 3 = i + 3 + 1 := by omega
      have p4 : i + 1 + 4 = i + 4 + 1 := by omega
      rw [p2, p3, p4]
      have c1 : validFrom (x :: b) (i + 1 + 1) = validFrom b (i + 1) :=
        ih b (i+1) (by omega)
      have c2 : validFrom (x :: b) (i + 2 + 1) = validFrom b (i + 2) :=
        ih b (i+2) (by omega)
      have c3 : validFrom (x :: b) (i + 3 + 1) = validFrom b (i + 3) :=
        ih b (i+3) (by omega)
      have c4 : validFrom (x :: b) (i + 4 + 1) = validFrom b (i + 4) :=
        ih b (i+4) (by omega)
      simp only [hi, hi', if_true, readAt_cons_succ, List.length_cons,
        Nat.add_lt_add_iff_right, c1, c2, c3, c4]

/-! List-level unfolding equations for validity. -/
theorem utf8Valid_nil : utf8Valid [] = true := by
  simp [utf8Valid, validFrom_oob]

theorem utf8Valid_cons_ascii (c : Nat) (rest : List Nat) (h : c < 0x80) :
    utf8Valid (c :: rest) = utf8Valid rest := by
  show validFrom (c :: rest) 0 = validFrom rest 0
  rw [validFrom.eq_def]
  simp [readAt, h, validFrom_cons]

theorem utf8Valid_cons2 (c c2 : Nat) (r : List Nat) (h2 : c &&& 0xE0 = 0xC0) :
    utf8Valid (c :: c2 :: r) = (isCont c2 && utf8Valid r) := by
  show validFrom (c :: c2 :: r) 0 = (isCont c2 && validFrom r 0)
  rw [validFrom.eq_def]
  have h1 := mask2_not_ascii c h2
  have e2 : validFrom (c :: c2 :: r) 2 = validFrom r 0 := by
    rw [show (2 : Nat) = 1 + 1 from rfl, validFrom_cons, validFrom_cons]
  simp [readAt, h1, h2, e2]

theorem utf8Valid_cons2_end (c : Nat) (h2 : c &&& 0xE0 = 0xC0) :
    utf8Valid [c] = false := by
  show validFrom [c] 0 = false
  rw [validFrom.eq_def]
  have h1 := mask2_not_ascii c h2
  simp [readAt, h1, h2]

theorem utf8Valid_cons3 (c c2 c3 : Nat) (r : List Nat)
    (h3 : c &&& 0xF0 = 0xE0) :
    utf8Valid (c :: c2 :: c3 :: r) =
      (isCont c2 && isCont c3 && utf8Valid r) := by
  show validFrom (c :: c2 :: c3 :: r) 0 = (isCont c2 && isCont c3 && validFrom r 0)
  rw [validFrom.eq_def]
  have h1 := mask3_not_ascii c h3
  have h2 := mask3_not_mask2 c h3
  have e3 : validFrom (c :: c2 :: c3 :: r) 3 = validFrom r 0 := by
    rw [show (3 : Nat) = 2 + 1 from rfl, validFrom_cons,
        show (2 : Nat) = 1 + 1 from rfl, validFrom_cons, validFrom_cons]
  simp [readAt, h1, h2, h3, e3, Bool.and_assoc]

theorem utf8Valid_cons3_short (c : Nat) (rest : List Nat)
    (h3 : c &&& 0xF0 = 0xE0) (hs : rest.length < 2) :
    utf8Valid (c :: rest) = false := by
  show validFrom (c :: rest) 0 = false
  rw [validFrom.eq_def]
  have h1 := mask3_not_ascii c h3
  have h2 := mask3_not_mask2 c h3
  have g2 : ¬ 2 < rest.length + 1 := by omega
  have g3 : ¬ 3 < rest.length + 1 := by omega
  simp [readAt, h1, h2, h3, g2, g3]

theorem utf8Valid_cons4 (c c2 c3 c4 : Nat) (r : List Nat)
    (h4 : c &&& 0xF8 = 0xF0) :
    utf8Valid (c :: c2 :: c3 :: c4 :: r) =
      (isCont c2 && isCont c3 && isCont c4 && utf8Valid r) := by
  show validFrom (c :: c2 :: c3 :: c4 :: r) 0 =
    (isCont c2 && isCont c3 && isCont c4 && validFrom r 0)
  rw [validFrom.eq_def]
  have h1 := mask4_not_ascii c h4
  have h2 := mask4_not_mask2 c h4
  have h3 := mask4_not_mask3 c h4
  have e4 : validFrom (c :: c2 :: c3 :: c4 :: r) 4 = validFrom r 0 := by
    rw [show (4 : Nat) = 3 + 1 from rfl, validFrom_cons,
        show (3 : Nat) = 2 + 1 from rfl, validFrom_cons,
        show (2 : Nat) = 1 + 1 from rfl, validFrom_cons, validFrom_cons]
  simp [readAt, h1, h2, h3, h4, e4, Bool.and_assoc]

theorem utf8Valid_cons4_short (c : Nat) (rest : List Nat)
    (h4 : c &&& 0xF8 = 0xF0) (hs : rest.length < 3) :
    utf8Valid (c :: rest) = false := by
  show validFrom (c :: rest) 0 = false
  rw [validFrom.eq_def]
  have h1 := mask4_not_ascii c h4
  have h2 := mask4_not_mask2 c h4
  have h3 := mask4_not_mask3 c h4
  have g3 : ¬ 3 < rest.length + 1 := by omega
  simp [readAt, h1, h2, h3, h4, g3]

theorem utf8Valid_cons_invalid (c : Nat) (rest : List Nat) (h1 : ¬ c < 0x80)
    (h2 : ¬ c &&& 0xE0 = 0xC0) (h3 : ¬ c &&& 0xF0 = 0xE0)
    (h4 : ¬ c &&& 0xF8 = 0xF0) :
    utf8Valid (c :: rest) = false := by
  show validFrom (c :: rest) 0 = false
  rw [validFrom.eq_def]
  simp [readAt, h1, h2, h3, h4]

theorem copy_length_le (s : List Nat) :
    (ajson_copy_valid_utf8 s).length ≤ s.length := by
  have := copyFrom_length_le s 0
  simpa [ajson_copy_valid_utf8] using this

/-- The filter's output is always mask-level valid UTF-8. -/
theorem copy_output_valid (s : List Nat) :
    utf8Valid (ajson_copy_valid_utf8 s) = true := by
  suffices H : ∀ n s, s.length ≤ n →
      utf8Valid (ajson_copy_valid_utf8 s) = true from H s.length s le_rfl
  intro n
  induction n with
  | zero =>
    intro s h
    have : s = [] := List.eq_nil_of_length_eq_zero (by omega)
    subst this; simp [copy_nil, utf8Valid_nil]
  | succ n ih =>
    intro s hle
    rcases s with _ | ⟨c, rest⟩
    · simp [copy_nil, utf8Valid_nil]
    · simp only [List.length_cons] at hle
      by_cases hc : c < 0x80
      · rw [copy_cons_ascii c rest hc, utf8Valid_cons_ascii c _ hc]
        exact ih _ (by have := copy_length_le rest; omega)
      · by_cases h2 : c &&& 0xE0 = 0xC0
        · rcases rest with _ | ⟨c2, r⟩
          · simp [copy_cons2_end c h2, utf8Valid_nil]
          · simp only [List.length_cons] at hle
            by_cases hcont : isCont c2 = true
            · rw [copy_cons2_ok c c2 r h2 hcont, utf8Valid_cons2 c c2 _ h2]
              simp [hcont, ih r (by omega)]
            · rw [copy_cons2_bad c c2 r h2 hcont]
              exact ih (c2 :: r) (by simp at hle ⊢; omega)
        · by_cases h3 : c &&& 0xF0 = 0xE0
          · rcases rest with _ | ⟨c2, _ | ⟨c3, r⟩⟩
            · rw [copy_cons3_short c [] h3 (by simp)]
              simp [copy_nil, utf8Valid_nil]
            · rw [copy_cons3_short c [c2] h3 (by simp)]
              exact ih [c2] (by simp at hle ⊢; omega)
            · simp only [List.length_cons] at hle
              by_cases hcont : (isCont c2 && isCont c3) = true
              · simp only [Bool.and_eq_true] at hcont
                rw [copy_cons3_ok c c2 c3 r h3 hcont.1 hcont.2,
                    utf8Valid_cons3 c c2 c3 _ h3]
                simp [hcont.1, hcont.2, ih r (by omega)]
              · rw [copy_cons3_bad c c2 c3 r h3 hcont]
                exact ih (c2 :: c3 :: r) (by simp at hle ⊢; omega)
          · by_cases h4 : c &&& 0xF8 = 0xF0
            · rcases rest with _ | ⟨c2, _ | ⟨c3, _ | ⟨c4, r⟩⟩⟩
              · rw [copy_cons4_short c [] h4 (by simp)]
                simp [copy_nil, utf8Valid_nil]
              · rw [copy_cons4_short c [c2] h4 (by simp)]
                exact ih [c2] (by simp at hle ⊢; omega)
              · rw [copy_cons4_short c [c2, c3] h4 (by simp)]
                exact ih [c2, c3] (by simp at hle ⊢; omega)
              · simp only [List.length_cons] at hle
                by_cases hcont : (isCont c2 && isCont c3 && isCont c4) = true
                · simp only [Bool.and_eq_true] at hcont
                  rw [copy_cons4_ok c c2 c3 c4 r h4 hcont.1.1 hcont.1.2 hcont.2,
                      utf8Valid_cons4 c c2 c3 c4 _ h4]
                  simp [hcont.1.1, hcont.1.2, hcont.2, ih r (by omega)]
                · rw [copy_cons4_bad c c2 c3 c4 r h4 hcont]
                  exact ih (c2 :: c3 :: c4 :: r) (by simp at hle ⊢; omega)
            · rw [copy_cons_invalid c rest hc h2 h3 h4]
              exact ih rest (by omega)

/-- On mask-level valid input the filter is the identity. -/
theorem copy_eq_self_of_valid (s : List Nat) (h : utf8Valid s = true) :
    ajson_copy_valid_utf8 s = s := by
  suffices H : ∀ n s, s.length ≤ n → utf8Valid s = true →
      ajson_copy_valid_utf8 s = s from H s.length s le_rfl h
  intro n
  induction n with
  | zero =>
    intro s hl _
    have : s = [] := List.eq_nil_of_length_eq_zero (by omega)
    subst this; simp [copy_nil]
  | succ n ih =>
    intro s hle hv
    rcases s with _ | ⟨c, rest⟩
    · simp [copy_nil]
    · simp only [List.length_cons] at hle
      by_cases hc : c < 0x80
      · rw [utf8Valid_cons_ascii c rest hc] at hv
        rw [copy_cons_ascii c rest hc, ih rest (by omega) hv]
      · by_cases h2 : c &&& 0xE0 = 0xC0
        · rcases rest with _ | ⟨c2, r⟩
          · rw [utf8Valid_cons2_end c h2] at hv; exact absurd hv (by simp)
          · simp only [List.length_cons] at hle
            rw [utf8Valid_cons2 c c2 r h2] at hv
            simp only [Bool.and_eq_true] at hv
            rw [copy_cons2_ok c c2 r h2 hv.1, ih r (by omega) hv.2]
        · by_cases h3 : c &&& 0xF0 = 0xE0
          · rcases rest with _ | ⟨c2, _ | ⟨c3, r⟩⟩
            · rw [utf8Valid_cons3_short c [] h3 (by simp)] at hv
              exact absurd hv (by simp)
            · rw [utf8Valid_cons3_short c [c2] h3 (by simp)] at hv
              exact absurd hv (by simp)
            · simp only [List.length_cons] at hle
              rw [utf8Valid_cons3 c c2 c3 r h3] at hv
              simp only [Bool.and_eq_true] at hv
              rw [copy_cons3_ok c c2 c3 r h3 hv.1.1 hv.1.2,
                  ih r (by omega) hv.2]
          · by_cases h4 : c &&& 0xF8 = 0xF0
            · rcases rest with _ | ⟨c2, _ | ⟨c3, _ | ⟨c4, r⟩⟩⟩
              · rw [utf8Valid_cons4_short c [] h4 (by simp)] at hv
                exact absurd hv (by simp)
              · rw [utf8Valid_cons4_short c [c2] h4 (by simp)] at hv
                exact absurd hv (by simp)
              · rw [utf8Valid_cons4_short c [c2, c3] h4 (by simp)] at hv
                exact absurd hv (by simp)
              · simp only [List.length_cons] at hle
                rw [utf8Valid_cons4 c c2 c3 c4 r h4] at hv
                simp only [Bool.and_eq_true] at hv
                rw [copy_cons4_ok c c2 c3 c4 r h4 hv.1.1.1 hv.1.1.2 hv.1.2,
                    ih r (by omega) hv.2]
            · rw [utf8Valid_cons_invalid c rest hc h2 h3 h4] at hv
              exact absurd hv (by simp)

/-- On input containing a mask-level invalid byte the filter strictly
shrinks. -/
theorem copy_length_lt_of_invalid (s : List Nat) (h : utf8Valid s = false) :
    (ajson_copy_valid_utf8 s).length < s.length := by
  suffices H : ∀ n s, s.length ≤ n → utf8Valid s = false →
      (ajson_copy_valid_utf8 s).length < s.length from H s.length s le_rfl h
  intro n
  induction n with
  | zero =>
    intro s hl hv
    have : s = [] := List.eq_nil_of_length_eq_zero (by omega)
    subst this; rw [utf8Valid_nil] at hv; exact absurd hv (by simp)
  | succ n ih =>
    intro s hle hv
    rcases s with _ | ⟨c, rest⟩
    · rw [utf8Valid_nil] at hv; exact absurd hv (by simp)
    · simp only [List.length_cons] at hle
      by_cases hc : c < 0x80
      · rw [utf8Valid_cons_ascii c rest hc] at hv
        rw [copy_cons_ascii c rest hc]
        have := ih rest (by omega) hv
        simp only [List.length_cons]; omega
      · by_cases h2 : c &&& 0xE0 = 0xC0
        · rcases rest with _ | ⟨c2, r⟩
          · simp [copy_cons2_end c h2]
          · simp only [List.length_cons] at hle
            by_cases hcont : isCont c2 = true
            · rw [utf8Valid_cons2 c c2 r h2] at hv
              simp only [hcont, Bool.true_and] at hv
              rw [copy_cons2_ok c c2 r h2 hcont]
              have := ih r (by omega) hv
              simp only [List.length_cons]; omega
            · rw [copy_cons2_bad c c2 r h2 hcont]
              have := copy_length_le (c2 :: r)
              simp only [List.length_cons] at *; omega
        · by_cases h3 : c &&& 0xF0 = 0xE0
          · rcases rest with _ | ⟨c2, _ | ⟨c3, r⟩⟩
            · simp [copy_cons3_short c [] h3 (by simp), copy_nil]
            · rw [copy_cons3_short c [c2] h3 (by simp)]
              have := copy_length_le [c2]
              simp only [List.length_cons] at *; omega
            · simp only [List.length_cons] at hle
              by_cases hcont : (isCont c2 && isCont c3) = true
              · simp only [Bool.and_eq_true] at hcont
                rw [utf8Valid_cons3 c c2 c3 r h3] at hv
                simp only [hcont.1, hcont.2, Bool.true_and] at hv
                rw [copy_cons3_ok c c2 c3 r h3 hcont.1 hcont.2]
                have := ih r (by omega) hv
                simp only [List.length_cons]; omega
              · rw [copy_cons3_bad c c2 c3 r h3 hcont]
                have := copy_length_le (c2 :: c3 :: r)
                simp only [List.length_cons] at *; omega
          · by_cases h4 : c &&& 0xF8 = 0xF0
            · rcases rest with _ | ⟨c2, _ | ⟨c3, _ | ⟨c4, r⟩⟩⟩
              · simp [copy_cons4_short c [] h4 (by simp), copy_nil]
              · rw [copy_cons4_short c [c2] h4 (by simp)]
                have := copy_length_le [c2]
                simp only [List.length_cons] at *; omega
              · rw [copy_cons4_short c [c2, c3] h4 (by simp)]
                have := copy_length_le [c2, c3]
                simp only [List.length_cons] at *; omega
              · simp only [List.length_cons] at hle
                by_cases hcont : (isCont c2 && isCont c3 && isCont c4) = true
                · simp only [Bool.and_eq_true] at hcont
                  rw [utf8Valid_cons4 c c2 c3 c4 r h4] at hv
                  simp only [hcont.1.1, hcont.1.2, hcont.2, Bool.true_and] at hv
                  rw [copy_cons4_ok c c2 c3 c4 r h4 hcont.1.1 hcont.1.2 hcont.2]
                  have := ih r (by omega) hv
                  simp only [List.length_cons]; omega
                · rw [copy_cons4_bad c c2 c3 c4 r h4 hcont]
                  have := copy_length_le (c2 :: c3 :: c4 :: r)
                  simp only [List.length_cons] at *; omega
            · rw [copy_cons_invalid c rest hc h2 h3 h4]
              have := copy_length_le rest
              simp only [List.length_cons] at *; omega

/-- Written length equals input length exactly on mask-level valid input. -/
theorem copy_length_eq_iff (s : List Nat) :
    ((ajson_copy_valid_utf8 s).length = s.length) ↔ utf8Valid s = true := by
  constructor
  · intro h
    by_cases hv : utf8Valid s = true
    · exact hv
    · have := copy_length_lt_of_invalid s (by simpa using hv)
      omega
  · intro hv
    rw [copy_eq_self_of_valid s hv]

theorem comma_len_entries (tl : AEntries) :
    (match tl with
     | .enil => ([] : List Nat)
     | .econs _ _ _ => [44]).length =
      (match tl with | .enil => 0 | .econs _ _ _ => 1) := by
  cases tl <;> rfl

theorem comma_len_elems (tl : AElems) :
    (match tl with
     | .nil => ([] : List Nat)
     | .cons _ _ => [44]).length =
      (match tl with | .nil => 0 | .cons _ _ => 1) := by
  cases tl <;> rfl

/-! The compact writer writes exactly the estimate minus the bytes the
UTF-8 filter drops from string payloads. -/
mutual
theorem dump_len_node (t : AJson) :
    (ajson_dump_to_memory t).length + strDeficiency t =
      _ajson_dump_estimate t := by
  cases t with
  | obj es =>
    have h := dump_len_entries es
    simp only [ajson_dump_to_memory, strDeficiency, _ajson_dump_estimate,
      List.length_cons, List.length_append, List.length_nil] at *
    omega
  | arr xs =>
    have h := dump_len_elems xs
    simp only [ajson_dump_to_memory, strDeficiency, _ajson_dump_estimate,
      List.length_cons, List.length_append, List.length_nil] at *
    omega
  | str payload =>
    have h := copy_length_le payload
    simp only [ajson_dump_to_memory, strDeficiency, _ajson_dump_estimate,
      List.length_cons, List.length_append, List.length_nil] at *
    omega
  | scalar t v =>
    simp [ajson_dump_to_memory, strDeficiency, _ajson_dump_estimate]
  | error =>
    simp [ajson_dump_to_memory, strDeficiency, _ajson_dump_estimate]

theorem dump_len_entries (es : AEntries) :
    (dump_object_entries es).length + entriesDeficiency es =
      est_object_entries es := by
  cases es with
  | enil =>
    simp [dump_object_entries, entriesDeficiency, est_object_entries]
  | econs k v tl =>
    have h1 := dump_len_node v
    have h2 := dump_len_entries tl
    simp only [dump_object_entries, entriesDeficiency, est_object_entries,
      List.length_cons, List.length_append, List.length_nil, comma_len_entries] at *
    omega

theorem dump_len_elems (xs : AElems) :
    (dump_array_elems xs).length + elemsDeficiency xs =
      est_array_elems xs := by
  cases xs with
  | nil =>
    simp [dump_array_elems, elemsDeficiency, est_array_elems]
  | cons v tl =>
    have h1 := dump_len_node v
    have h2 := dump_len_elems tl
    simp only [dump_array_elems, elemsDeficiency, est_array_elems,
      List.length_cons, List.length_append, List.length_nil, comma_len_elems] at *
    omega
end

/-! Likewise for the pretty writer, at any depth and indent step. -/
mutual
theorem pp_dump_len_node (t : AJson) (depth : Nat) (step : Int) :
    (_ajson_dump_pretty_to_memory t depth step).length + strDeficiency t =
      _ajson_dump_pretty_estimate t depth step := by
  cases t with
  | obj es =>
    have h := pp_dump_len_entries es depth step
    cases es <;>
      (simp only [_ajson_dump_pretty_to_memory, strDeficiency,
        _ajson_dump_pretty_estimate, _indent_mem, List.length_cons,
        List.length_append, List.length_replicate, List.length_nil] at *; omega)
  | arr xs =>
    have h := pp_dump_len_elems xs depth step
    cases xs <;>
      (simp only [_ajson_dump_pretty_to_memory, strDeficiency,
        _ajson_dump_pretty_estimate, _indent_mem, List.length_cons,
        List.length_append, List.length_replicate, List.length_nil] at *; omega)
  | str payload =>
    have h := copy_length_le payload
    simp only [_ajson_dump_pretty_to_memory, strDeficiency,
      _ajson_dump_pretty_estimate, List.length_cons, List.length_append, List.length_nil] at *
    omega
  | scalar t v =>
    simp [_ajson_dump_pretty_to_memory, strDeficiency,
      _ajson_dump_pretty_estimate]
  | error =>
    simp [_ajson_dump_pretty_to_memory, strDeficiency,
      _ajson_dump_pretty_estimate]

theorem pp_dump_len_entries (es : AEntries) (depth : Nat) (step : Int) :
    (pp_dump_object_entries es depth step).length + entriesDeficiency es =
      pp_est_object_entries es depth step := by
  cases es with
  | enil =>
    simp [pp_dump_object_entries, entriesDeficiency, pp_est_object_entries]
  | econs k v tl =>
    have h1 := pp_dump_len_node v (depth + 1) step
    have h2 := pp_dump_len_entries tl depth step
    simp only [pp_dump_object_entries, entriesDeficiency,
      pp_est_object_entries, _indent_mem, List.length_cons,
      List.length_append, List.length_replicate, List.length_nil, comma_len_entries] at *
    omega

theorem pp_dump_len_elems (xs : AElems) (depth : Nat) (step : Int) :
    (pp_dump_array_elems xs depth step).length + elemsDeficiency xs =
      pp_est_array_elems xs depth step := by
  cases xs with
  | nil =>
    simp [pp_dump_array_elems, elemsDeficiency, pp_est_array_elems]
  | cons v tl =>
    have h1 := pp_dump_len_node v (depth + 1) step
    have h2 := pp_dump_len_elems tl depth step
    simp only [pp_dump_array_elems, elemsDeficiency, pp_est_array_elems,
      _indent_mem, List.length_cons, List.length_append,
      List.length_replicate, comma_len_elems] at *
    omega
end

/-! Deficiency vanishes exactly when every string payload is valid. -/
mutual
theorem strDeficiency_zero_iff (t : AJson) :
    (strDeficiency t = 0) ↔ allStringsValid t = true := by
  cases t with
  | obj es =>
    simpa [strDeficiency, allStringsValid] using entriesDeficiency_zero_iff es
  | arr xs =>
    simpa [strDeficiency, allStringsValid] using elemsDeficiency_zero_iff xs
  | str payload =>
    simp only [strDeficiency, allStringsValid]
    have h := copy_length_le payload
    rw [← copy_length_eq_iff]
    omega
  | scalar t v => simp [strDeficiency, allStringsValid]
  | error => simp [strDeficiency, allStringsValid]

theorem entriesDeficiency_zero_iff (es : AEntries) :
    (entriesDeficiency es = 0) ↔ entriesStringsValid es = true := by
  cases es with
  | enil => simp [entriesDeficiency, entriesStringsValid]
  | econs k v tl =>
    have h1 := strDeficiency_zero_iff v
    have h2 := entriesDeficiency_zero_iff tl
    simp only [entriesDeficiency, entriesStringsValid, Bool.and_eq_true,
      Nat.add_eq_zero]
    rw [h1, h2]

theorem elemsDeficiency_zero_iff (xs : AElems) :
    (elemsDeficiency xs = 0) ↔ elemsStringsValid xs = true := by
  cases xs with
  | nil => simp [elemsDeficiency, elemsStringsValid]
  | cons v tl =>
    have h1 := strDeficiency_zero_iff v
    have h2 := elemsDeficiency_zero_iff tl
    simp only [elemsDeficiency, elemsStringsValid, Bool.and_eq_true,
      Nat.add_eq_zero]
    rw [h1, h2]
end

theorem chainWalk_eq_get (l : List Nat) : ∀ n, chainWalk l n = l.get? n := by
  induction l with
  | nil => intro n; cases n <;> rfl
  | cons x r ih => intro n; cases n with
    | zero => rfl
    | succ m => simpa [chainWalk] using ih m

theorem encode_scan_hit_iff (c : Nat) :
    encode_scan_hit c = true ↔ needs_escape_spec c := by
  simp only [encode_scan_hit, needs_escape_spec, Bool.or_eq_true,
    decide_eq_true_eq, beq_iff_eq]
  tauto

theorem encode_scan_none_iff (s : List Nat) :
    ajson_encode_scan s = none ↔ ∀ c ∈ s, ¬ needs_escape_spec c := by
  induction s with
  | nil => simp [ajson_encode_scan]
  | cons c r ih =>
    by_cases h : encode_scan_hit c = true
    · simp only [ajson_encode_scan, h, if_true]
      constructor
      · intro hc; cases hc
      · intro hall
        exact absurd ((encode_scan_hit_iff c).1 h) (hall c (by simp))
    · have hc : ¬ needs_escape_spec c :=
        fun hn => h ((encode_scan_hit_iff c).2 hn)
      rw [show ajson_encode_scan (c :: r) =
        (ajson_encode_scan r).map (· + 1) from by
          simp [ajson_encode_scan, h]]
      constructor
      · intro h0 d hd
        have hr : ajson_encode_scan r = none := by
          cases hx : ajson_encode_scan r
          · rfl
          · rw [hx] at h0; cases h0
        rcases List.mem_cons.1 hd with rfl | hd
        · exact hc
        · exact ih.1 hr d hd
      · intro hall
        have : ajson_encode_scan r = none :=
          ih.2 (fun d hd => hall d (List.mem_cons_of_mem c hd))
        rw [this]; rfl

set_option maxHeartbeats 2000000 in
theorem encode_loop_eq_flatMap (s : List Nat) :
    _ajson_encode_loop s = s.flatMap escape_map_spec := by
  induction s with
  | nil => rfl
  | cons c r ih =>
    rw [List.flatMap_cons, ← ih]
    show _ajson_encode_loop (c :: r) =
      escape_map_spec c ++ _ajson_encode_loop r
    simp only [_ajson_encode_loop, escape_map_spec]
    split_ifs <;> simp only [List.cons_append, List.nil_append]

set_option maxHeartbeats 2000000 in
theorem flatMap_escape_id (s : List Nat)
    (h : ∀ c ∈ s, ¬ needs_escape_spec c) :
    s.flatMap escape_map_spec = s := by
  induction s with
  | nil => rfl
  | cons c r ih =>
    have hc := h c (by simp)
    have hr := ih (fun d hd => h d (List.mem_cons_of_mem c hd))
    simp only [needs_escape_spec, not_or, not_lt] at hc
    obtain ⟨h0, h34, h92, h47, hge⟩ := hc
    simp only [List.flatMap_cons, escape_map_spec, hr]
    split_ifs <;> first | omega | simp only [List.cons_append, List.nil_append]

theorem encode_scan_some_prefix (s : List Nat) :
    ∀ p, ajson_encode_scan s = some p →
      ∀ c ∈ s.take p, ¬ needs_escape_spec c := by
  induction s with
  | nil => intro p h; cases h
  | cons c r ih =>
    intro p h
    simp only [ajson_encode_scan] at h
    by_cases hc : encode_scan_hit c = true
    · simp only [hc, if_true, Option.some.injEq] at h
      subst h; simp
    · rw [if_neg hc] at h
      cases hq : ajson_encode_scan r with
      | none => rw [hq] at h; cases h
      | some q =>
        rw [hq] at h
        simp only [Option.map_some', Option.some.injEq] at h
        subst h
        intro d hd
        simp only [List.take_succ_cons, List.mem_cons] at hd
        rcases hd with rfl | hd
        · intro hn; exact hc ((encode_scan_hit_iff d).2 hn)
        · exact ih q hq d hd

theorem scan_eq_nth (elems : List Nat) (nth : Int) :
    ajsona_scan elems nth = ajsona_nth elems nth := by
  unfold ajsona_scan ajsona_nth _ajsona_fill
  by_cases hr : nth < 0 ∨ elems.length ≤ nth.toNat
  · simp [hr]
  · simp only [hr, if_false]
    push_neg at hr
    have hlt : nth.toNat < elems.length := hr.2
    by_cases hm : elems.length >>> 1 < nth.toNat
    · simp only [hm, if_true, chainWalk_eq_get]
      have h1 : elems.length - nth.toNat - 1 < elems.length := by omega
      rw [List.get?_eq_getElem?, List.get?_eq_getElem?,
        List.getElem?_reverse h1]
      congr 1
      omega
    · simp [hm, chainWalk_eq_get]

theorem liveVal_of_not_contains (es : List OEntry) (k : List Nat)
    (h : (okeys es).contains k = false) : liveVal es k = none := by
  induction es with
  | nil => rfl
  | cons e r ih =>
    simp only [okeys, List.map_cons, List.contains_cons, Bool.or_eq_false_iff,
      beq_eq_false_iff_ne, ne_eq] at h
    simp only [liveVal, List.find?_cons]
    rw [show (e.key == k) = false from by
      simp only [beq_eq_false_iff_ne, ne_eq]
      exact fun hx => h.1 hx.symm]
    have := ih (by simp [okeys]; simpa [okeys] using h.2)
    simpa [liveVal] using this

theorem liveVal_append_of_not_contains (es tl : List OEntry) (k : List Nat)
    (h : (okeys es).contains k = false) :
    liveVal (es ++ tl) k = liveVal tl k := by
  induction es with
  | nil => rfl
  | cons e r ih =>
    simp only [okeys, List.map_cons, List.contains_cons, Bool.or_eq_false_iff,
      beq_eq_false_iff_ne, ne_eq] at h
    simp only [List.cons_append, liveVal, List.find?_cons]
    rw [show (e.key == k) = false from by
      simp only [beq_eq_false_iff_ne, ne_eq]
      exact fun hx => h.1 hx.symm]
    have := ih (by simpa [okeys] using h.2)
    simpa [liveVal] using this

theorem contains_append_cons (l tl : List (List Nat)) (z : List Nat) :
    (l ++ z :: tl).contains z = true := by
  induction l with
  | nil => simp [List.contains_cons]
  | cons a r ih => simp [List.contains_cons, ih]

theorem okeys_append (es tl : List OEntry) :
    okeys (es ++ tl) = okeys es ++ okeys tl := by
  simp [okeys]

theorem eraseFirst_append_of_contains (es tl : List OEntry) (r : List Nat)
    (h : (okeys es).contains r = true) :
    eraseFirst (es ++ tl) r = eraseFirst es r ++ tl := by
  induction es with
  | nil => simp [okeys] at h
  | cons e l ih =>
    simp only [okeys, List.map_cons, List.contains_cons, Bool.or_eq_true,
      beq_iff_eq] at h
    simp only [List.cons_append, eraseFirst]
    by_cases he : e.key = r
    · simp [he]
    · simp only [he, if_false, List.cons_append, List.cons.injEq, true_and]
      rcases h with h | h
      · exact absurd h.symm he
      · exact ih (by simpa [okeys] using h)

theorem contains_okeys_eraseFirst (es : List OEntry) (k r : List Nat)
    (h : (okeys es).contains k = false) :
    (okeys (eraseFirst es r)).contains k = false := by
  induction es with
  | nil => rfl
  | cons e l ih =>
    simp only [okeys, List.map_cons, List.contains_cons, Bool.or_eq_false_iff] at h
    simp only [eraseFirst]
    by_cases he : e.key = r
    · rw [if_pos he]
      simpa [okeys] using h.2
    · rw [if_neg he]
      simp only [okeys, List.map_cons, List.contains_cons,
        Bool.or_eq_false_iff]
      exact ⟨h.1, by simpa [okeys] using ih (by simpa [okeys] using h.2)⟩

theorem find?_key_eq_contains (es : List OEntry) (k : List Nat) :
    (es.find? (fun e => e.key == k)).isSome = (okeys es).contains k := by
  induction es with
  | nil => rfl
  | cons e r ih =>
    simp only [List.find?_cons, okeys, List.map_cons, List.contains_cons]
    by_cases he : e.key = k
    · simp [he]
    · rw [show (e.key == k) = false from by simpa using he,
        show (k == e.key) = false from by
          simp only [beq_eq_false_iff_ne, ne_eq]
          exact fun hx => he hx.symm]
      simpa [okeys] using ih

theorem contains_append_left (l1 l2 : List (List Nat)) (k : List Nat)
    (h : l1.contains k = true) : (l1 ++ l2).contains k = true := by
  induction l1 with
  | nil => simp at h
  | cons a r ih =>
    simp only [List.contains_cons, Bool.or_eq_true] at h
    simp only [List.cons_append, List.contains_cons, Bool.or_eq_true]
    rcases h with h | h
    · exact Or.inl h
    · exact Or.inr (ih h)

theorem ajsono_get_spec (E : List OEntry) (rt : Option ORoot) (k : List Nat)
    (h : IndexConsistent ⟨E, rt⟩) :
    (ajsono_get ⟨E, rt⟩ k).1 = liveVal E k ∧
    (ajsono_get ⟨E, rt⟩ k).2.entries = E ∧
    IndexConsistent (ajsono_get ⟨E, rt⟩ k).2 := by
  have hsearch : ∀ s' : ObjState, s'.entries = E →
      s'.root = some (.snap (okeys E)) → E ≠ [] →
      (if (okeys E).contains k then liveVal E k else none) = liveVal E k ∧
      IndexConsistent s' := by
    intro s' he hr hne
    constructor
    · by_cases hk : (okeys E).contains k
      · rw [if_pos hk]
      · rw [if_neg hk]
        simp only [Bool.not_eq_true] at hk
        exact (liveVal_of_not_contains E k hk).symm
    · right; left
      rw [hr, he]
      exact ⟨rfl, hne⟩
  rcases h with h | ⟨h, hne⟩ | ⟨h, hne⟩
  · simp only at h
    subst h
    by_cases hE : E = []
    · subst hE
      exact ⟨rfl, rfl, Or.inl rfl⟩
    · have hres : ajsono_get ⟨E, none⟩ k =
          (if (okeys E).contains k then liveVal E k else none,
           ⟨E, some (.snap (okeys E))⟩) := by
        simp [ajsono_get, _ajsono_fill, hE]
      rw [hres]
      obtain ⟨h1, h2⟩ := hsearch ⟨E, some (.snap (okeys E))⟩ rfl rfl hE
      exact ⟨h1, rfl, h2⟩
  · simp only at h
    subst h
    have hres : ajsono_get ⟨E, some (.snap (okeys E))⟩ k =
        (if (okeys E).contains k then liveVal E k else none,
         ⟨E, some (.snap (okeys E))⟩) := by
      simp [ajsono_get]
    rw [hres]
    obtain ⟨h1, h2⟩ := hsearch ⟨E, some (.snap (okeys E))⟩ rfl rfl hne
    exact ⟨h1, rfl, h2⟩
  · simp only at h
    subst h
    have hE : ¬ E = [] := hne
    have hres : ajsono_get ⟨E, some (.tree (okeys E))⟩ k =
        (if (okeys E).contains k then liveVal E k else none,
         ⟨E, some (.snap (okeys E))⟩) := by
      simp [ajsono_get, _ajsono_fill, hE]
    rw [hres]
    obtain ⟨h1, h2⟩ := hsearch ⟨E, some (.snap (okeys E))⟩ rfl rfl hne
    exact ⟨h1, rfl, h2⟩

theorem ajsono_find_spec (E : List OEntry) (rt : Option ORoot) (k : List Nat)
    (h : IndexConsistent ⟨E, rt⟩) :
    (ajsono_find ⟨E, rt⟩ k).1 = liveVal E k ∧
    (ajsono_find ⟨E, rt⟩ k).2.entries = E ∧
    IndexConsistent (ajsono_find ⟨E, rt⟩ k).2 := by
  have hsearch : ∀ s' : ObjState, s'.entries = E →
      s'.root = some (.tree (okeys E)) → E ≠ [] →
      (if (okeys E).contains k then liveVal E k else none) = liveVal E k ∧
      IndexConsistent s' := by
    intro s' he hr hne
    constructor
    · by_cases hk : (okeys E).contains k
      · rw [if_pos hk]
      · rw [if_neg hk]
        simp only [Bool.not_eq_true] at hk
        exact (liveVal_of_not_contains E k hk).symm
    · right; right
      rw [hr, he]
      exact ⟨rfl, hne⟩
  rcases h with h | ⟨h, hne⟩ | ⟨h, hne⟩
  · simp only at h
    subst h
    by_cases hE : E = []
    · subst hE
      exact ⟨rfl, rfl, Or.inl rfl⟩
    · have hres : ajsono_find ⟨E, none⟩ k =
          (if (okeys E).contains k then liveVal E k else none,
           ⟨E, some (.tree (okeys E))⟩) := by
        simp [ajsono_find, _ajsono_fill_tree, hE]
      rw [hres]
      obtain ⟨h1, h2⟩ := hsearch ⟨E, some (.tree (okeys E))⟩ rfl rfl hE
      exact ⟨h1, rfl, h2⟩
  · simp only at h
    subst h
    have hE : ¬ E = [] := hne
    have hres : ajsono_find ⟨E, some (.snap (okeys E))⟩ k =
        (if (okeys E).contains k then liveVal E k else none,
         ⟨E, some (.tree (okeys E))⟩) := by
      simp [ajsono_find, _ajsono_fill_tree, hE]
    rw [hres]
    obtain ⟨h1, h2⟩ := hsearch ⟨E, some (.tree (okeys E))⟩ rfl rfl hne
    exact ⟨h1, rfl, h2⟩
  · simp only at h
    subst h
    have hres : ajsono_find ⟨E, some (.tree (okeys E))⟩ k =
        (if (okeys E).contains k then liveVal E k else none,
         ⟨E, some (.tree (okeys E))⟩) := by
      simp [ajsono_find]
    rw [hres]
    obtain ⟨h1, h2⟩ := hsearch ⟨E, some (.tree (okeys E))⟩ rfl rfl hne
    exact ⟨h1, rfl, h2⟩

theorem runLk_spec (ops : List LkOp) : ∀ s : ObjState, IndexConsistent s →
    (runLk s ops).1 = ops.map (fun op => liveVal s.entries op.key) ∧
    (runLk s ops).2.entries = s.entries ∧
    IndexConsistent (runLk s ops).2 := by
  induction ops with
  | nil => intro s h; exact ⟨rfl, rfl, h⟩
  | cons op rest ih =>
    intro s h
    obtain ⟨E, rt⟩ := s
    cases op with
    | get k =>
      obtain ⟨h1, h2, h3⟩ := ajsono_get_spec E rt k h
      obtain ⟨i1, i2, i3⟩ := ih _ h3
      simp only [runLk, List.map_cons]
      refine ⟨?_, ?_, i3⟩
      · rw [h1, i1, h2]; rfl
      · rw [i2, h2]
    | find k =>
      obtain ⟨h1, h2, h3⟩ := ajsono_find_spec E rt k h
      obtain ⟨i1, i2, i3⟩ := ih _ h3
      simp only [runLk, List.map_cons]
      refine ⟨?_, ?_, i3⟩
      · rw [h1, i1, h2]; rfl
      · rw [i2, h2]

theorem ajson_encode_eq_flatMap (s : List Nat) :
    ajson_encode s = s.flatMap escape_map_spec := by
  cases h : ajson_encode_scan s with
  | none =>
    simp only [ajson_encode, h]
    exact (flatMap_escape_id s ((encode_scan_none_iff s).1 h)).symm
  | some p =>
    have hpre := encode_scan_some_prefix s p h
    simp only [ajson_encode, h, _ajson_encode]
    rw [encode_loop_eq_flatMap]
    conv_rhs => rw [← List.take_append_drop p s]
    rw [List.flatMap_append, flatMap_escape_id _ hpre]

theorem decode_u_quad (h1 h2 h3 h4 d1 d2 d3 d4 : Nat) (rest : List Nat)
    (e1 : hexVal h1 = some d1) (e2 : hexVal h2 = some d2)
    (e3 : hexVal h3 = some d3) (e4 : hexVal h4 = some d4)
    (hcp : ¬ (0xD800 ≤ ((d1 * 16 + d2) * 16 + d3) * 16 + d4 ∧
              ((d1 * 16 + d2) * 16 + d3) * 16 + d4 ≤ 0xDBFF)) :
    decodeLoop (92 :: 117 :: h1 :: h2 :: h3 :: h4 :: rest) =
      utf8_emit (((d1 * 16 + d2) * 16 + d3) * 16 + d4) ++ decodeLoop rest := by
  rw [decodeLoop.eq_def]
  simp only [unicode_to_utf8, readAt, List.getD, List.get?, Option.getD_some,
    e1, e2, e3, e4]
  rw [if_neg hcp]
  norm_num

/-! ## The claims -/
/-- C1: for every object state whose single `root` index is absent or
freshly built, and every interleaving of `ajsono_find` and `ajsono_get`
calls, each lookup returns the value currently stored in the live entry
list under the requested key (a `get` after `find` rebuilds the sorted
snapshot rather than binary-searching the tree memory, and
symmetrically), the entry list is untouched, and at most one index is
ever active, holding exactly the current entries. -/
theorem claim_C1_lookup_interleaving (s : ObjState) (ops : List LkOp)
    (h : IndexConsistent s) :
    (runLk s ops).1 = ops.map (fun op => liveVal s.entries op.key) ∧
    (runLk s ops).2.entries = s.entries ∧
    IndexConsistent (runLk s ops).2 :=
  runLk_spec ops s h

theorem claim_C1_witness :
    IndexConsistent ⟨[⟨[97], 1⟩], none⟩ ∧
    (runLk ⟨[⟨[97], 1⟩], none⟩ [.find [109], .get [97]]).1 =
      [none, some 1] := by
  refine ⟨Or.inl rfl, ?_⟩
  have h := claim_C1_lookup_interleaving ⟨[⟨[97], 1⟩], none⟩
    [.find [109], .get [97]] (Or.inl rfl)
  rw [h.1]
  decide

set_option maxHeartbeats 1000000 in
/-- C2: the input whose first byte is `]` is not a valid JSON
production, yet `ajson_parse` does not return an error node for it: the
`]` case of `start_value` dereferences the NULL `arr` pointer, modelled
as the `.crash` outcome, refuting the claim that every invalid input
yields an error node. -/
theorem claim_C2_leading_bracket_crash :
    ajson_parse [93] = PResult.crash := by
  simp [ajson_parse, pStartValue, readAt, isSpaceB, isDigitB]

/-- C3: the compact writer writes exactly `ajson_dump_estimate - 1`
bytes if and only if every string payload is valid UTF-8, and likewise
the pretty writer against `ajson_dump_pretty_estimate` for every indent
step; with an invalid payload both writers write strictly less; a step
`≤ 0` means step 2. -/
theorem claim_C3_estimate_exact (t : AJson) (step : Int) :
    ((ajson_dump_to_memory t).length + 1 = ajson_dump_estimate t ↔
      allStringsValid t = true) ∧
    ((_ajson_dump_pretty_to_memory t 0 step).length + 1 =
        ajson_dump_pretty_estimate t step ↔ allStringsValid t = true) ∧
    (allStringsValid t = false →
      (ajson_dump_to_memory t).length + 1 < ajson_dump_estimate t ∧
      (_ajson_dump_pretty_to_memory t 0 step).length + 1 <
        ajson_dump_pretty_estimate t step) ∧
    (step ≤ 0 → _pp_step step = 2) := by
  have hd := dump_len_node t
  have hp := pp_dump_len_node t 0 step
  have hz := strDeficiency_zero_iff t
  refine ⟨?_, ?_, ?_, ?_⟩
  · rw [ajson_dump_estimate, ← hz]
    omega
  · rw [ajson_dump_pretty_estimate, ← hz]
    omega
  · intro hv
    have hnz : ¬ strDeficiency t = 0 := fun h0 => by
      rw [hz.1 h0] at hv; cases hv
    rw [ajson_dump_estimate, ajson_dump_pretty_estimate]
    omega
  · intro hstep
    rw [_pp_step, if_neg (by omega)]

theorem claim_C3_witness :
    allStringsValid (AJson.str [195]) = false ∧
    (ajson_dump_to_memory (AJson.str [195])).length + 1 <
      ajson_dump_estimate (AJson.str [195]) := by
  have hv : allStringsValid (AJson.str [195]) = false := by
    simp [allStringsValid, utf8Valid, validFrom, readAt, isCont]
  exact ⟨hv, ((claim_C3_estimate_exact (AJson.str [195]) 2).2.2.1 hv).1⟩

/-- C4: a `\uXXXX` escape with a valid hex quad outside the surrogate
range emits that code point in UTF-8 and decoding continues after the
quad; the surrogate pair `\uD834\uDD1E` emits exactly F0 9D 84 9E; the
lone high surrogate `\uD800` emits its own six bytes verbatim without
consuming what follows; the bad quad `\u12G4` emits its six bytes
verbatim and decoding continues. -/
theorem claim_C4_unicode_escapes :
    (∀ h1 h2 h3 h4 d1 d2 d3 d4 : Nat, ∀ rest : List Nat,
      hexVal h1 = some d1 → hexVal h2 = some d2 →
      hexVal h3 = some d3 → hexVal h4 = some d4 →
      ¬ (0xD800 ≤ ((d1 * 16 + d2) * 16 + d3) * 16 + d4 ∧
          ((d1 * 16 + d2) * 16 + d3) * 16 + d4 ≤ 0xDBFF) →
      decodeLoop (92 :: 117 :: h1 :: h2 :: h3 :: h4 :: rest) =
        utf8_emit (((d1 * 16 + d2) * 16 + d3) * 16 + d4) ++
          decodeLoop rest) ∧
    decodeLoop [92, 117, 68, 56, 51, 52, 92, 117, 68, 68, 49, 69] =
      [240, 157, 132, 158] ∧
    decodeLoop [92, 117, 68, 56, 48, 48] = [92, 117, 68, 56, 48, 48] ∧
    decodeLoop [92, 117, 68, 56, 48, 48, 97, 98, 99] =
      [92, 117, 68, 56, 48, 48, 97, 98, 99] ∧
    decodeLoop [92, 117, 49, 50, 71, 52] = [92, 117, 49, 50, 71, 52] ∧
    decodeLoop [92, 117, 49, 50, 71, 52, 97] =
      [92, 117, 49, 50, 71, 52, 97] := by
  refine ⟨decode_u_quad, ?_, ?_, ?_, ?_, ?_⟩ <;>
    simp [decodeLoop, unicode_to_utf8, hexVal, utf8_emit, readAt] <;>
    decide

theorem claim_C4_witness :
    hexVal 48 = some 0 ∧ hexVal 52 = some 4 ∧ hexVal 49 = some 1 ∧
    ¬ (0xD800 ≤ ((0 * 16 + 0) * 16 + 4) * 16 + 1 ∧
        ((0 * 16 + 0) * 16 + 4) * 16 + 1 ≤ 0xDBFF) ∧
    decodeLoop [92, 117, 48, 48, 52, 49] =
      utf8_emit (((0 * 16 + 0) * 16 + 4) * 16 + 1) ++ decodeLoop [] :=
  ⟨by decide, by decide, by decide, by decide,
   claim_C4_unicode_escapes.1 48 48 52 49 0 0 4 1 []
     (by decide) (by decide) (by decide) (by decide) (by decide)⟩

/-- C5: the emitters' UTF-8 filter copies every well-formed 1/2/3/4-byte
sequence whole, skips exactly one input byte when a continuation byte
fails the mask or a multi-byte prefix is incomplete, and its output is
always valid UTF-8 of length at most the input length. -/
theorem claim_C5_utf8_filter :
    (∀ s : List Nat, utf8Valid (ajson_copy_valid_utf8 s) = true ∧
      (ajson_copy_valid_utf8 s).length ≤ s.length) ∧
    (∀ c rest, c < 0x80 →
      ajson_copy_valid_utf8 (c :: rest) = c :: ajson_copy_valid_utf8 rest) ∧
    (∀ c c2 r, c &&& 0xE0 = 0xC0 → isCont c2 = true →
      ajson_copy_valid_utf8 (c :: c2 :: r) =
        c :: c2 :: ajson_copy_valid_utf8 r) ∧
    (∀ c c2 c3 r, c &&& 0xF0 = 0xE0 → isCont c2 = true → isCont c3 = true →
      ajson_copy_valid_utf8 (c :: c2 :: c3 :: r) =
        c :: c2 :: c3 :: ajson_copy_valid_utf8 r) ∧
    (∀ c c2 c3 c4 r, c &&& 0xF8 = 0xF0 → isCont c2 = true →
      isCont c3 = true → isCont c4 = true →
      ajson_copy_valid_utf8 (c :: c2 :: c3 :: c4 :: r) =
        c :: c2 :: c3 :: c4 :: ajson_copy_valid_utf8 r) ∧
    (∀ c c2 r, c &&& 0xE0 = 0xC0 → ¬ isCont c2 = true →
      ajson_copy_valid_utf8 (c :: c2 :: r) = ajson_copy_valid_utf8 (c2 :: r)) ∧
    (∀ c c2 c3 r, c &&& 0xF0 = 0xE0 → ¬ (isCont c2 && isCont c3) = true →
      ajson_copy_valid_utf8 (c :: c2 :: c3 :: r) =
        ajson_copy_valid_utf8 (c2 :: c3 :: r)) ∧
    (∀ c c2 c3 c4 r, c &&& 0xF8 = 0xF0 →
      ¬ (isCont c2 && isCont c3 && isCont c4) = true →
      ajson_copy_valid_utf8 (c :: c2 :: c3 :: c4 :: r) =
        ajson_copy_valid_utf8 (c2 :: c3 :: c4 :: r)) ∧
    (∀ c rest, c &&& 0xF0 = 0xE0 → rest.length < 2 →
      ajson_copy_valid_utf8 (c :: rest) = ajson_copy_valid_utf8 rest) ∧
    (∀ c rest, c &&& 0xF8 = 0xF0 → rest.length < 3 →
      ajson_copy_valid_utf8 (c :: rest) = ajson_copy_valid_utf8 rest) ∧
    (∀ c, c &&& 0xE0 = 0xC0 → ajson_copy_valid_utf8 [c] = []) ∧
    (∀ c rest, ¬ c < 0x80 → ¬ c &&& 0xE0 = 0xC0 → ¬ c &&& 0xF0 = 0xE0 →
      ¬ c &&& 0xF8 = 0xF0 →
      ajson_copy_valid_utf8 (c :: rest) = ajson_copy_valid_utf8 rest) :=
  ⟨fun s => ⟨copy_output_valid s, copy_length_le s⟩, copy_cons_ascii,
   copy_cons2_ok, copy_cons3_ok, copy_cons4_ok, copy_cons2_bad,
   copy_cons3_bad, copy_cons4_bad, copy_cons3_short, copy_cons4_short,
   copy_cons2_end, copy_cons_invalid⟩

theorem claim_C5_witness :
    (195 &&& 0xE0 = 0xC0) ∧ isCont 169 = true ∧
    ajson_copy_valid_utf8 [195, 169] = 195 :: 169 :: ajson_copy_valid_utf8 [] :=
  ⟨by decide, by decide,
   claim_C5_utf8_filter.2.2.1 195 169 [] (by decide) (by decide)⟩

/-- C6: once `ajsono_get` has built the snapshot of a nonempty object,
appending a fresh key `z` leaves the snapshot untouched, so `get z`
misses; removing a present key, or `ajsono_set` on a fresh key, drops
the snapshot, and the next `get z` rebuilds it from the current entries
and finds `z`. -/
theorem claim_C6_snapshot_staleness (E : List OEntry) (k0 z w r : List Nat)
    (v v2 : Nat) (hE : E ≠ [])
    (hz : (okeys E).contains z = false)
    (hr : (okeys E).contains r = true)
    (hw : (okeys (E ++ [OEntry.mk z v])).contains w = false) :
    (ajsono_get (ajsono_append ((ajsono_get ⟨E, none⟩ k0).2) z v) z).1 =
      none ∧
    (ajsono_get (ajsono_append ((ajsono_get ⟨E, none⟩ k0).2) z v) z).2 =
      ajsono_append ((ajsono_get ⟨E, none⟩ k0).2) z v ∧
    ((ajsono_remove (ajsono_append ((ajsono_get ⟨E, none⟩ k0).2) z v) r).2).root =
      none ∧
    (ajsono_get ((ajsono_remove (ajsono_append ((ajsono_get ⟨E, none⟩ k0).2) z v) r).2) z).1 =
      some v ∧
    (ajsono_set (ajsono_append ((ajsono_get ⟨E, none⟩ k0).2) z v) w v2).root =
      none ∧
    (ajsono_get (ajsono_set (ajsono_append ((ajsono_get ⟨E, none⟩ k0).2) z v) w v2) z).1 =
      some v := by
  have hzm : z ∉ okeys E := by simpa using hz
  have hs1 : (ajsono_get ⟨E, none⟩ k0).2 = ⟨E, some (.snap (okeys E))⟩ := by
    simp [ajsono_get, _ajsono_fill, hE]
  rw [hs1]
  have hs2 : ajsono_append ⟨E, some (.snap (okeys E))⟩ z v =
      ⟨E ++ [OEntry.mk z v], some (.snap (okeys E))⟩ := rfl
  rw [hs2]
  have ha : ajsono_get ⟨E ++ [OEntry.mk z v], some (.snap (okeys E))⟩ z =
      (none, ⟨E ++ [OEntry.mk z v], some (.snap (okeys E))⟩) := by
    simp [ajsono_get, hzm]
  have hfind : ((E ++ [OEntry.mk z v]).find? (fun e => e.key == r)).isSome =
      true := by
    rw [find?_key_eq_contains, okeys_append]
    exact contains_append_left _ _ _ hr
  have hb : ajsono_remove ⟨E ++ [OEntry.mk z v], some (.snap (okeys E))⟩ r =
      (true, ⟨eraseFirst E r ++ [OEntry.mk z v], none⟩) := by
    unfold ajsono_remove
    rw [if_pos hfind, eraseFirst_append_of_contains E [OEntry.mk z v] r hr]
  have hb2 : (ajsono_get ⟨eraseFirst E r ++ [OEntry.mk z v], none⟩ z).1 =
      some v := by
    have hne2 : eraseFirst E r ++ [OEntry.mk z v] ≠ [] := by simp
    have hczm : z ∈ okeys (eraseFirst E r ++ [OEntry.mk z v]) := by
      simp [okeys]
    have hlv : liveVal (eraseFirst E r ++ [OEntry.mk z v]) z = some v := by
      rw [liveVal_append_of_not_contains _ _ _
        (contains_okeys_eraseFirst E z r hz)]
      simp [liveVal, List.find?]
    simp [ajsono_get, _ajsono_fill, hne2, hczm, hlv]
  have hfw : ((E ++ [OEntry.mk z v]).find? (fun e => e.key == w)).isSome =
      false := by
    rw [find?_key_eq_contains]
    exact hw
  have hcset : ajsono_set ⟨E ++ [OEntry.mk z v], some (.snap (okeys E))⟩ w v2 =
      ⟨(E ++ [OEntry.mk z v]) ++ [OEntry.mk w v2], none⟩ := by
    unfold ajsono_set
    rw [if_neg (by rw [hfw]; decide)]
  have hc2 : (ajsono_get ⟨(E ++ [OEntry.mk z v]) ++ [OEntry.mk w v2], none⟩ z).1 =
      some v := by
    have hassoc : (E ++ [OEntry.mk z v]) ++ [OEntry.mk w v2] =
        E ++ [OEntry.mk z v, OEntry.mk w v2] := by
      simp
    rw [hassoc]
    have hne3 : E ++ [OEntry.mk z v, OEntry.mk w v2] ≠ [] := by simp
    have hczm : z ∈ okeys (E ++ [OEntry.mk z v, OEntry.mk w v2]) := by
      simp [okeys]
    have hlv : liveVal (E ++ [OEntry.mk z v, OEntry.mk w v2]) z =
        some v := by
      rw [show E ++ [OEntry.mk z v, OEntry.mk w v2] =
          E ++ (OEntry.mk z v :: [OEntry.mk w v2]) from rfl,
        liveVal_append_of_not_contains _ _ _ hz]
      simp [liveVal, List.find?]
    simp [ajsono_get, _ajsono_fill, hne3, hczm, hlv]
  refine ⟨by rw [ha], by rw [ha], by rw [hb], by rw [hb]; exact hb2,
    by rw [hcset], by rw [hcset]; exact hc2⟩

theorem claim_C6_witness :
    ([OEntry.mk [97] 1] : List OEntry) ≠ [] ∧
    (okeys [OEntry.mk [97] 1]).contains [122] = false ∧
    (okeys [OEntry.mk [97] 1]).contains [97] = true ∧
    (okeys ([OEntry.mk [97] 1] ++ [OEntry.mk [122] 2])).contains [119] = false ∧
    (ajsono_get (ajsono_append ((ajsono_get ⟨[OEntry.mk [97] 1], none⟩ [97]).2) [122] 2) [122]).1 =
      none ∧
    (ajsono_get ((ajsono_remove (ajsono_append ((ajsono_get ⟨[OEntry.mk [97] 1], none⟩ [97]).2) [122] 2) [97]).2) [122]).1 =
      some 2 :=
  ⟨by decide, by decide, by decide, by decide,
   (claim_C6_snapshot_staleness [OEntry.mk [97] 1] [97] [122] [119] [97] 2 3
     (by decide) (by decide) (by decide) (by decide)).1,
   (claim_C6_snapshot_staleness [OEntry.mk [97] 1] [97] [122] [119] [97] 2 3
     (by decide) (by decide) (by decide) (by decide)).2.2.2.1⟩

set_option maxHeartbeats 2000000 in
set_option maxRecDepth 4000 in
/-- C7: the parser stores the literal text and tags `0` as zero, `-0`
and `1e2` as number, `0.0` as decimal, and rejects the leading zeros of
`01` and `-01`; but the value-path literal `1.5`, which contains `.`,
is tagged number rather than decimal (the `next_digit` block tags every
success path `AJSON_NUMBER`), refuting the classification for literals
containing `.`. -/
theorem claim_C7_number_tags :
    ajson_parse [48] = .ok (.scalar .tzero [48]) ∧
    ajson_parse [45, 48] = .ok (.scalar .tnumber [45, 48]) ∧
    ajson_parse [49, 101, 50] = .ok (.scalar .tnumber [49, 101, 50]) ∧
    ajson_parse [48, 46, 48] = .ok (.scalar .tdecimal [48, 46, 48]) ∧
    ajson_parse [48, 49] = .err 1 ∧
    ajson_parse [45, 48, 49] = .err 2 ∧
    ajson_parse [49, 46, 53] = .ok (.scalar .tnumber [49, 46, 53]) := by
  refine ⟨?_, ?_, ?_, ?_, ?_, ?_, ?_⟩ <;>
    simp [ajson_parse, pStartValue, pAddValue, valueNextDigitScan,
      decimalNumberScan, scanExpTail, findNonDigit, readAt, isDigitB,
      isSpaceB, sliceB]

/-- C8: `ajson_encode` is the zero-copy identity exactly when no byte
is NUL, a quote, backslash, slash, or a control byte below 0x20;
its output is always the concatenation of the per-byte escape map
(two-byte escapes for the eight named characters, uppercase `\u00XX`
for other control bytes, everything else verbatim). -/
theorem claim_C8_encode_zero_copy_iff (s : List Nat) :
    (ajson_encode_zero_copy s = true ↔ ∀ c ∈ s, ¬ needs_escape_spec c) ∧
    (ajson_encode_zero_copy s = true → ajson_encode s = s) ∧
    ajson_encode s = s.flatMap escape_map_spec := by
  refine ⟨?_, ?_, ajson_encode_eq_flatMap s⟩
  · rw [ajson_encode_zero_copy, Option.isNone_iff_eq_none]
    exact encode_scan_none_iff s
  · intro h
    rw [ajson_encode_zero_copy, Option.isNone_iff_eq_none] at h
    rw [ajson_encode, h]

theorem claim_C8_witness :
    ajson_encode [10, 65] = [92, 110, 65] ∧
    ajson_encode_zero_copy [65, 66] = true := by
  constructor
  · have h := (claim_C8_encode_zero_copy_iff [10, 65]).2.2
    simpa [escape_map_spec, hexUp] using h
  · exact ((claim_C8_encode_zero_copy_iff [65, 66]).1).2 (by decide)

/-- C9: the balanced list walk `ajsona_scan` agrees with the
table-based `ajsona_nth` on every array and index, and a negative or
out-of-range index yields the null reference from both. -/
theorem claim_C9_scan_refines_nth (elems : List Nat) (nth : Int) :
    ajsona_scan elems nth = ajsona_nth elems nth ∧
    (nth < 0 ∨ elems.length ≤ nth.toNat → ajsona_nth elems nth = none) := by
  refine ⟨scan_eq_nth elems nth, fun h => ?_⟩
  rw [ajsona_nth, if_pos h]

theorem claim_C9_witness :
    ajsona_scan [5, 6, 7] 2 = ajsona_nth [5, 6, 7] 2 ∧
    ajsona_nth [5, 6, 7] (-1) = none :=
  ⟨(claim_C9_scan_refines_nth [5, 6, 7] 2).1,
   (claim_C9_scan_refines_nth [5, 6, 7] (-1)).2 (Or.inl (by decide))⟩

/-- C10: every public type predicate returns `false` on the NULL node
reference, so a lookup miss can be passed to any predicate without a
separate null check. -/
theorem claim_C10_predicates_null_safe :
    ajson_is_error none = false ∧ ajson_is_object none = false ∧
    ajson_is_array none = false ∧ ajson_is_null none = false ∧
    ajson_is_bool none = false ∧ ajson_is_string none = false ∧
    ajson_is_number none = false :=
  ⟨rfl, rfl, rfl, rfl, rfl, rfl, rfl⟩

end AJsonLib
